import Mathlib

/-!
studentDB: the indexed record store of `src/one.cpp`

A shallow embedding of `struct Student`, `struct PageResult` and
`class IndexedStudentDB`.

Modelling conventions.

* The data file is the list of its bytes (`List Nat`, a byte being a natural
  below 256; no definition depends on the bound).  Stream positions
  (`streampos`) are integers.
* `write(reinterpret_cast<const char*>(&s), sizeof(Student))` and the matching
  `read` copy the object representation of a `Student`.  The layout is the
  LP64 little-endian one: `id` at 0..3, `name` at 4..53, `address` at 54..153,
  six padding bytes, `createdAt` at 160..167, `updatedAt` at 168..175,
  `isActive` at 176, seven padding bytes; `sizeof(Student) = 184`.  Padding
  bytes are indeterminate in C++ and read by nobody; they are written as 0.
* `int` arithmetic is two's complement on 32 bits (`wrapInt`); `time_t` is a
  64-bit integer; `time(nullptr)` is an explicit argument `now`.
* The data stream is the one the constructor leaves for a fresh store
  (`ios::in | ios::out | ios::binary | ios::trunc`): a write lands at the put
  position.  File operations themselves do not fail; a `read` fails exactly
  when fewer than `sizeof(Student)` bytes are left at the get position.
* `unordered_map<int, streampos>` is an association list with at most one
  entry per key; its iteration order is the list order and is not specified
  by C++.
* The two files of a store are a `Disk`; the index file holds, per entry, the
  4 bytes of the `int` key and the 16 bytes of the `streampos`.  A stream just
  opened in append mode without `ios::ate` reports the get position 0, as
  with glibc (`tellgAfterAppOpen`).
-/

namespace StudentDB

/-! ## Constants and machine integers -/

def NAME_SIZE : Nat := 50
def ADDR_SIZE : Nat := 100
def PAGE_SIZE : Int := 5

/-- Bytes of `sizeof(Student)` under the layout described above. -/
def sizeofStudent : Nat := 184

/-- The value is representable in an `int`. -/
def isInt (x : Int) : Prop := -2147483648 ≤ x ∧ x ≤ 2147483647

instance (x : Int) : Decidable (isInt x) := by unfold isInt; infer_instance

/-- The value is representable in a `time_t`. -/
def isTimeT (x : Int) : Prop := -9223372036854775808 ≤ x ∧ x ≤ 9223372036854775807

instance (x : Int) : Decidable (isTimeT x) := by unfold isTimeT; infer_instance

/-- Result of an `int` operation whose mathematical value is `x`
(two's complement wrap-around). -/
def wrapInt (x : Int) : Int := (x + 2147483648) % 4294967296 - 2147483648

/-- Conversion of an `int` to `size_t` (the usual arithmetic conversion applied
in `pageStudents.size() < pageSize`). -/
def toSizeT (x : Int) : Int := x % 18446744073709551616

/-- Little-endian bytes of a natural, `w` of them. -/
def toLE : Nat → Nat → List Nat
  | 0, _ => []
  | w + 1, n => (n % 256) :: toLE w (n / 256)

/-- The natural a little-endian byte string stands for. -/
def ofLE : List Nat → Nat
  | [] => 0
  | b :: bs => b % 256 + 256 * ofLE bs

/-- Object representation of a 4-byte `int`. -/
def encodeInt32 (x : Int) : List Nat := toLE 4 (x % 4294967296).toNat

/-- Value of the 4-byte `int` stored in `bs`. -/
def decodeInt32 (bs : List Nat) : Int :=
  if ofLE bs < 2147483648 then (ofLE bs : Int) else (ofLE bs : Int) - 4294967296

/-- Object representation of an 8-byte `time_t`. -/
def encodeInt64 (x : Int) : List Nat := toLE 8 (x % 18446744073709551616).toNat

/-- Value of the 8-byte `time_t` stored in `bs`. -/
def decodeInt64 (bs : List Nat) : Int :=
  if ofLE bs < 9223372036854775808 then (ofLE bs : Int)
  else (ofLE bs : Int) - 18446744073709551616

/-! ## `struct Student` -/

/-- The fields of `struct Student`; `name` and `address` are the raw `char`
arrays. -/
structure Student where
  id : Int
  name : List Nat
  address : List Nat
  createdAt : Int
  updatedAt : Int
  isActive : Bool
  deriving DecidableEq, Repr

/-- The record is a value of the C++ type: the integers fit their types and the
arrays have their declared sizes. -/
def Student.WF (s : Student) : Prop :=
  isInt s.id ∧ s.name.length = NAME_SIZE ∧ s.address.length = ADDR_SIZE ∧
    isTimeT s.createdAt ∧ isTimeT s.updatedAt

instance (s : Student) : Decidable s.WF := by unfold Student.WF; infer_instance

/-- Contents of a `char[n]` array as `n` bytes (arrays of the declared size are
left as they are). -/
def fixField (n : Nat) (l : List Nat) : List Nat := (l ++ List.replicate n 0).take n

/-- Effect of `strncpy(dst, src.c_str(), n)` on the first `n` bytes of `dst`:
the bytes of `src` before its first NUL, at most `n` of them, then NULs up to
`n` bytes. -/
def strncpy (src : List Nat) (n : Nat) : List Nat :=
  (src.takeWhile (fun b => b != 0)).take n ++
    List.replicate (n - ((src.takeWhile (fun b => b != 0)).take n).length) 0

/-- Array of `size` bytes after `strncpy(dst, src.c_str(), size - 1);`
`dst[size - 1] = 0`. -/
def setText (size : Nat) (src : List Nat) : List Nat := strncpy src (size - 1) ++ [0]

/-- The C string held in a `char` array: the bytes before the first NUL (the
whole array when it holds none). -/
def cstr (field : List Nat) : List Nat := field.takeWhile (fun b => b != 0)

/-- `Student(int, const string&, const string&)`; the two calls of
`time(nullptr)` return `t1` and `t2`. -/
def Student.new (studentId : Int) (studentName studentAddress : List Nat) (t1 t2 : Int) :
    Student :=
  { id := studentId
    name := setText NAME_SIZE studentName
    address := setText ADDR_SIZE studentAddress
    createdAt := t1
    updatedAt := t2
    isActive := true }

/-- Object representation of a `Student`: the bytes `write` puts in the file. -/
def encode (s : Student) : List Nat :=
  encodeInt32 s.id ++ (fixField NAME_SIZE s.name ++ (fixField ADDR_SIZE s.address ++
    (List.replicate 6 0 ++ (encodeInt64 s.createdAt ++ (encodeInt64 s.updatedAt ++
      ((if s.isActive then 1 else 0) :: List.replicate 7 0))))))

/-- The `Student` whose object representation is the block `blk` (what `read`
leaves in `s`); a flag byte other than 0 reads as `true`. -/
def decode (blk : List Nat) : Student :=
  { id := decodeInt32 (blk.take 4)
    name := (blk.drop 4).take NAME_SIZE
    address := (blk.drop 54).take ADDR_SIZE
    createdAt := decodeInt64 ((blk.drop 160).take 8)
    updatedAt := decodeInt64 ((blk.drop 168).take 8)
    isActive := (blk.drop 176).headD 0 != 0 }

/-! ## The data file -/

/-- `seekg(pos)` followed by `read(&s, sizeof(Student))`: the block at `pos`,
or nothing when the seek fails or fewer than `sizeof(Student)` bytes are left. -/
def readAt (data : List Nat) (pos : Int) : Option (List Nat) :=
  if 0 ≤ pos ∧ pos.toNat + sizeofStudent ≤ data.length then
    some ((data.drop pos.toNat).take sizeofStudent)
  else none

/-- `seekp(pos)` followed by `write` of `bytes` and `flush`: the bytes replace
those at `pos`; a gap past the end of the file reads as zeros; a failed seek
(negative position) leaves the file alone. -/
def writeAt (data : List Nat) (pos : Int) (bytes : List Nat) : List Nat :=
  if pos < 0 then data
  else data.take pos.toNat ++ (List.replicate (pos.toNat - data.length) 0 ++
    (bytes ++ data.drop (pos.toNat + bytes.length)))

/-! ## `unordered_map<int, streampos> id_index` -/

abbrev Index := List (Int × Int)

/-- `id_index.at(k)` as an option (`none` when `count(k) == 0`). -/
def Index.at : Index → Int → Option Int
  | [], _ => none
  | (a, p) :: t, k => if a = k then some p else Index.at t k

/-- `id_index.count(k)`. -/
def Index.count (m : Index) (k : Int) : Nat := if (m.at k).isSome then 1 else 0

/-- `id_index[k] = v`. -/
def Index.assign : Index → Int → Int → Index
  | [], k, v => [(k, v)]
  | (a, p) :: t, k, v => if a = k then (a, v) :: t else (a, p) :: Index.assign t k v

/-- `id_index.erase(k)`. -/
def Index.erase (m : Index) (k : Int) : Index := m.filter (fun e => e.1 != k)

/-- The keys of the index, in iteration order. -/
def Index.keys (m : Index) : List Int := m.map Prod.fst

/-! ## `class IndexedStudentDB` -/

/-- State of an open store: the contents of the data file and the in-memory
index. -/
structure Store where
  dataFile : List Nat
  id_index : Index
  deriving DecidableEq, Repr

/-- A fresh store: empty data file, empty index. -/
def Store.fresh : Store := { dataFile := [], id_index := [] }

/-- `bool addStudent(const Student& s)`. -/
def addStudent (db : Store) (s : Student) : Bool × Store :=
  if db.id_index.count s.id != 0 then (false, db)
  else
    let newPos : Int := db.dataFile.length
    (true, { dataFile := writeAt db.dataFile newPos (encode s)
             id_index := db.id_index.assign s.id newPos })

/-- `optional<Student> findStudentById(int id)`.  The function is not `const`
(it repositions the stream), so the store is passed through; every path
returns it as it was. -/
def findStudentById (db : Store) (id : Int) : Option Student × Store :=
  if db.id_index.count id == 0 then (none, db)
  else
    match db.id_index.at id with
    | none => (none, db)
    | some pos =>
      match readAt db.dataFile pos with
      | some blk =>
        if (decode blk).isActive && (decode blk).id == id then (some (decode blk), db)
        else (none, db)
      | none => (none, db)

/-- Lines 159 to 164 of `updateStudent`: the copy `s` of the record found, after
both `strncpy` calls, the two terminators and `s.updatedAt = time(nullptr)`. -/
def applyUpdate (s0 : Student) (newName newAddress : List Nat) (now : Int) : Student :=
  { s0 with name := setText NAME_SIZE newName
            address := setText ADDR_SIZE newAddress
            updatedAt := now }

/-- Lines 181 to 183 of `deleteStudent`: the copy `s` of the record found, after
`s.isActive = false` and `s.updatedAt = time(nullptr)`. -/
def markDeleted (s0 : Student) (now : Int) : Student :=
  { s0 with isActive := false, updatedAt := now }

/-- `bool updateStudent(int id, const string& newName, const string& newAddress)`,
with `now` the value of `time(nullptr)`.  (`id_index.at(id)` cannot throw here:
the lookup before it succeeded.) -/
def updateStudent (db : Store) (id : Int) (newName newAddress : List Nat) (now : Int) :
    Bool × Store :=
  match findStudentById db id with
  | (none, db1) => (false, db1)
  | (some s0, db1) =>
    let s : Student := applyUpdate s0 newName newAddress now
    match db1.id_index.at id with
    | none => (false, db1)
    | some pos => (true, { db1 with dataFile := writeAt db1.dataFile pos (encode s) })

/-- `bool deleteStudent(int id)`, with `now` the value of `time(nullptr)`. -/
def deleteStudent (db : Store) (id : Int) (now : Int) : Bool × Store :=
  if db.id_index.count id == 0 then (false, db)
  else
    match findStudentById db id with
    | (none, db1) => (false, db1)
    | (some s0, db1) =>
      let s : Student := markDeleted s0 now
      match db1.id_index.at id with
      | none => (false, db1)
      | some pos =>
        (true, { dataFile := writeAt db1.dataFile pos (encode s)
                 id_index := db1.id_index.erase id })

/-! ## Sequential scans -/

/-- The result of `getAllStudents` and `searchBy`. -/
structure PageResult where
  students : List Student
  currentPage : Int
  totalPages : Int
  totalRecords : Int
  deriving DecidableEq, Repr

/-- `while (dataFile.read(&s, sizeof(Student))) body`, started at get position
`pos`; `fuel` bounds the number of turns (`readLoop_eq_foldl` below shows that
the bound used by the callers is never reached). -/
def readLoop {σ : Type} (body : σ → Student → σ) (data : List Nat) : Nat → Int → σ → σ
  | 0, _, st => st
  | fuel + 1, pos, st =>
    match readAt data pos with
    | some blk => readLoop body data fuel (pos + sizeofStudent) (body st (decode blk))
    | none => st

/-- Body of the loop of `getAllStudents`; the state is
`(pageStudents, totalActiveRecords)`. -/
def listBody (recordsToSkip pageSize : Int) (st : List Student × Int) (s : Student) :
    List Student × Int :=
  if s.isActive then
    (if st.2 ≥ recordsToSkip ∧ (st.1.length : Int) < toSizeT pageSize then st.1 ++ [s] else st.1,
      wrapInt (st.2 + 1))
  else st

/-- `result.totalPages` as computed from the final count (lines 217 and 218):
`int` division truncates; `pageSize = 0` divides by zero in C++ and is given
the quotient 0 here. -/
def pageCount (total pageSize : Int) : Int :=
  let totalPages := wrapInt (Int.tdiv (wrapInt (wrapInt (total + pageSize) - 1)) pageSize)
  if totalPages = 0 then 1 else totalPages

/-- `PageResult getAllStudents(int pageNumber, int pageSize)`. -/
def getAllStudents (db : Store) (pageNumber pageSize : Int) : PageResult :=
  let recordsToSkip := wrapInt (wrapInt (pageNumber - 1) * pageSize)
  let fin := readLoop (listBody recordsToSkip pageSize) db.dataFile db.dataFile.length 0 ([], 0)
  { students := fin.1
    currentPage := pageNumber
    totalPages := pageCount fin.2 pageSize
    totalRecords := fin.2 }

/-- `::tolower` in the "C" locale (the program never calls `setlocale`). -/
def toLower (b : Nat) : Nat := if 65 ≤ b ∧ b ≤ 90 then b + 32 else b

/-- `text.find(q) != string::npos`: `q` occurs in `text` as a contiguous
block. -/
def occursIn (q text : List Nat) : Bool := text.tails.any (fun u => q.isPrefixOf u)

/-- Lines 236 to 238 of `searchBy`: the chosen field, read as a C string and
lower-cased, contains `lowerQuery`. -/
def fieldMatches (lowerQuery : List Nat) (byName : Bool) (s : Student) : Bool :=
  occursIn lowerQuery ((cstr (if byName then s.name else s.address)).map toLower)

/-- Body of the loop of `searchBy`; the state is
`(pageStudents, totalMatchingRecords)`. -/
def searchBody (lowerQuery : List Nat) (byName : Bool) (recordsToSkip pageSize : Int)
    (st : List Student × Int) (s : Student) : List Student × Int :=
  if s.isActive then
    if fieldMatches lowerQuery byName s then
      (if st.2 ≥ recordsToSkip ∧ (st.1.length : Int) < toSizeT pageSize then st.1 ++ [s]
        else st.1,
        wrapInt (st.2 + 1))
    else st
  else st

/-- `PageResult searchBy(const string& query, bool byName, int pageNumber, int pageSize)`. -/
def searchBy (db : Store) (query : List Nat) (byName : Bool) (pageNumber pageSize : Int) :
    PageResult :=
  let lowerQuery := query.map toLower
  let recordsToSkip := wrapInt (wrapInt (pageNumber - 1) * pageSize)
  let fin := readLoop (searchBody lowerQuery byName recordsToSkip pageSize) db.dataFile
    db.dataFile.length 0 ([], 0)
  { students := fin.1
    currentPage := pageNumber
    totalPages := pageCount fin.2 pageSize
    totalRecords := fin.2 }

/-! ## The index file and the life of a store -/

/-- Bytes of `sizeof(int)`. -/
def sizeofInt : Nat := 4

/-- Bytes of `sizeof(streampos)`: `std::fpos<mbstate_t>` holds an 8-byte offset
and an 8-byte conversion state. -/
def sizeofStreampos : Nat := 16

/-- Object representation of a `streampos` with offset `pos`; the conversion
state of a position of a byte stream is zero. -/
def encodePos (pos : Int) : List Nat := encodeInt64 pos ++ List.replicate 8 0

/-- Offset of the `streampos` stored in `bs`. -/
def decodePos (bs : List Nat) : Int := decodeInt64 (bs.take 8)

/-- The two base-named files of a store; `none` is a file that does not
exist. -/
structure Disk where
  dat : Option (List Nat)
  idx : Option (List Nat)
  deriving DecidableEq, Repr

/-- What happens when `saveIndex` writes the index file: every write succeeds,
the file cannot be opened, or the writes fail from entry `n` on. -/
inductive IndexMedium
  | writable
  | unopenable
  | failsAfter (n : Nat)
  deriving DecidableEq, Repr

/-- The loop of `saveIndex`: key and position of every entry, in iteration
order. -/
def saveIndexLoop : Index → List Nat
  | [] => []
  | (id, pos) :: rest => encodeInt32 id ++ (encodePos pos ++ saveIndexLoop rest)

/-- `void saveIndex()`: the index file afterwards.  The function returns
nothing and tests no stream state: on a stream that failed to open every write
is a no-operation and the file stays as it was; after a failed write the later
ones are no-operations. -/
def saveIndex (m : Index) (medium : IndexMedium) (old : Option (List Nat)) :
    Option (List Nat) :=
  match medium with
  | IndexMedium.writable => some (saveIndexLoop m)
  | IndexMedium.unopenable => old
  | IndexMedium.failsAfter n => some (saveIndexLoop (m.take n))

/-- The loop of `loadIndex`: read an `int` and a `streampos` until one of the
two reads fails; `fuel` bounds the number of turns. -/
def loadIndexLoop : Nat → List Nat → Index → Index
  | 0, _, m => m
  | fuel + 1, rest, m =>
    if sizeofInt ≤ rest.length then
      if sizeofStreampos ≤ (rest.drop sizeofInt).length then
        loadIndexLoop fuel ((rest.drop sizeofInt).drop sizeofStreampos)
          (m.assign (decodeInt32 (rest.take sizeofInt))
            (decodePos ((rest.drop sizeofInt).take sizeofStreampos)))
      else m
    else m

/-- `void loadIndex()`, run on the index `m`: a missing index file leaves the
index alone. -/
def loadIndex (m : Index) (idx : Option (List Nat)) : Index :=
  match idx with
  | none => m
  | some bytes => loadIndexLoop bytes.length bytes m

/-- `dataFile.tellg()` right after `open` with
`ios::in | ios::out | ios::binary | ios::app` and without `ios::ate`: the get
position is the start of the file, whatever the file holds (glibc opens an
"a+" stream at offset 0). -/
def tellgAfterAppOpen (_contents : List Nat) : Int := 0

/-- `IndexedStudentDB(const string& basename)`: the store built and the disk
after the constructor.  The first `open` creates a missing data file and
succeeds; when `tellg() == 0` the file is closed and opened again with
`ios::trunc`, which empties it. -/
def openStore (disk : Disk) : Store × Disk :=
  let contents := disk.dat.getD []
  let isOpen := true
  let data := if !isOpen || tellgAfterAppOpen contents == 0 then [] else contents
  ({ dataFile := data, id_index := loadIndex [] disk.idx }, { disk with dat := some data })

/-- `~IndexedStudentDB()` for a store whose data file is open: the lines sent
to `cout` (an empty line, then the message) and the disk afterwards. -/
def closeStore (db : Store) (disk : Disk) (medium : IndexMedium) : List String × Disk :=
  (["", "Shutting down. Saving index..."],
    { dat := some db.dataFile, idx := saveIndex db.id_index medium disk.idx })

/-! ## Vocabulary for the properties -/

/-- The `i`-th block of `sizeof(Student)` bytes of the data file. -/
def slot (data : List Nat) (i : Nat) : List Nat :=
  (data.drop (i * sizeofStudent)).take sizeofStudent

/-- The records held by the full blocks of the data file, in file order (a
trailing part shorter than a block is not a record). -/
def records (data : List Nat) : List Student :=
  (List.range (data.length / sizeofStudent)).map (fun i => decode (slot data i))

/-- The active records of the data file, in file order. -/
def activeRecords (data : List Nat) : List Student :=
  (records data).filter (fun s => s.isActive)

/-- The active records of the data file that `searchBy` matches, in file
order. -/
def matchingRecords (data : List Nat) (query : List Nat) (byName : Bool) : List Student :=
  (records data).filter (fun s => s.isActive && fieldMatches (query.map toLower) byName s)

/-- Common shape of the two loop bodies: a record satisfying `p` is counted,
and pushed on the page when the count has reached `recordsToSkip` and the page
is not full. -/
def pageStep (p : Student → Bool) (recordsToSkip pageSize : Int) (st : List Student × Int)
    (s : Student) : List Student × Int :=
  if p s then
    (if st.2 ≥ recordsToSkip ∧ (st.1.length : Int) < toSizeT pageSize then st.1 ++ [s]
      else st.1,
      wrapInt (st.2 + 1))
  else st

/-- The store states reachable from a fresh store by calls of `addStudent`,
`updateStudent` and `deleteStudent`, successful or not, with arguments of the
C++ types. -/
inductive Reachable : Store → Prop
  | fresh : Reachable Store.fresh
  | add (db : Store) (r : Student) : Reachable db → r.WF → Reachable (addStudent db r).2
  | update (db : Store) (k : Int) (n a : List Nat) (t : Int) :
      Reachable db → Reachable (updateStudent db k n a t).2
  | delete (db : Store) (k : Int) (t : Int) : Reachable db → Reachable (deleteStudent db k t).2

/-- Accounting of active records: the data file is a whole number of blocks,
every indexed offset is the start of a block, and every block holding an active
record is the one the index maps the id of that record to. -/
def Accounted (db : Store) : Prop :=
  db.dataFile.length % sizeofStudent = 0 ∧
    (∀ k pos, db.id_index.at k = some pos →
      ∃ j : Nat, pos = ((j * sizeofStudent : Nat) : Int)) ∧
    (∀ i, i < db.dataFile.length / sizeofStudent →
      (decode (slot db.dataFile i)).isActive = true →
      db.id_index.at (decode (slot db.dataFile i)).id = some ((i * sizeofStudent : Nat) : Int))

/-- The store states reachable from a fresh store by calls of `addStudent` with
active records, `updateStudent` and `deleteStudent`, successful or not. -/
inductive ReachableActive : Store → Prop
  | fresh : ReachableActive Store.fresh
  | add (db : Store) (r : Student) :
      ReachableActive db → r.WF → r.isActive = true → ReachableActive (addStudent db r).2
  | update (db : Store) (k : Int) (n a : List Nat) (t : Int) :
      ReachableActive db → ReachableActive (updateStudent db k n a t).2
  | delete (db : Store) (k : Int) (t : Int) :
      ReachableActive db → ReachableActive (deleteStudent db k t).2

/-- Index/data consistency: every key of the index maps to an offset that is a
multiple of the record size and whose block lies inside the data file, and
that block holds an active record with the key as id. -/
def Consistent (db : Store) : Prop :=
  ∀ k pos, db.id_index.at k = some pos →
    ∃ j : Nat, pos = ((j * sizeofStudent : Nat) : Int) ∧
      j * sizeofStudent + sizeofStudent ≤ db.dataFile.length ∧
      (decode (slot db.dataFile j)).id = k ∧ (decode (slot db.dataFile j)).isActive = true

/-! ## Sample data -/

/-- A record as the menu builds it: id 7, name "Al", address "Rd", created at
time 1000. -/
def sampleStudent : Student := Student.new 7 [65, 108] [82, 100] 1000 1000

/-- The store after adding `sampleStudent` to a fresh store. -/
def sampleStore : Store := (addStudent Store.fresh sampleStudent).2

/-- A store whose index is stale: the only slot holds a soft-deleted record
with id 7, and the index (as loaded from an index file saved before the
deletion) still maps 7 to offset 0. -/
def staleStore : Store :=
  { dataFile := encode (markDeleted sampleStudent 1500), id_index := [(7, 0)] }

/-- The store after adding records with ids 1 to `n` (names "A", "B", ...) to
a fresh store. -/
def storeOfSize (n : Nat) : Store :=
  (List.range n).foldl
    (fun db i => (addStudent db (Student.new (i + 1 : Nat) [65 + i] [82, 100] 1000 1000)).2)
    Store.fresh

/-- The text "Alice Smith". -/
def aliceSmith : List Nat := [65, 108, 105, 99, 101, 32, 83, 109, 105, 116, 104]

/-- The store after adding a record with id 1, name "Alice Smith" and address
"Rd" to a fresh store. -/
def aliceStore : Store :=
  (addStudent Store.fresh (Student.new 1 aliceSmith [82, 100] 1000 1000)).2

/-- The record `Student()` builds (id 0, times 0, inactive, empty texts); the
bytes of the arrays that the constructor leaves unset are taken as NUL. -/
def defaultStudent : Student :=
  { id := 0, name := List.replicate NAME_SIZE 0, address := List.replicate ADDR_SIZE 0,
    createdAt := 0, updatedAt := 0, isActive := false }

/-- The store after `addStudent(Student())` on a fresh store. -/
def inactiveStore : Store := (addStudent Store.fresh defaultStudent).2

/-- An inactive record with id 7: `Student()` with `id` set to 7. -/
def inactiveSeven : Student := { defaultStudent with id := 7 }

/-! ## The record codec -/

theorem length_toLE (w n : Nat) : (toLE w n).length = w := by
  induction w generalizing n with
  | zero => rfl
  | succ w ih => simp [toLE, ih]

theorem ofLE_toLE (w n : Nat) : ofLE (toLE w n) = n % 256 ^ w := by
  induction w generalizing n with
  | zero => simp [toLE, ofLE, Nat.mod_one]
  | succ w ih => simp [toLE, ofLE, ih, pow_succ', Nat.mod_mul]

theorem ofLE_lt (bs : List Nat) : ofLE bs < 256 ^ bs.length := by
  induction bs with
  | nil => simp [ofLE]
  | cons b bs ih =>
    have hb : b % 256 < 256 := Nat.mod_lt _ (by decide)
    simp only [ofLE, List.length_cons, pow_succ]
    omega

theorem ofLE_lt_of_length_le (bs : List Nat) (w : Nat) (h : bs.length ≤ w) :
    ofLE bs < 256 ^ w :=
  lt_of_lt_of_le (ofLE_lt bs) (Nat.pow_le_pow_right (by decide) h)

theorem length_encodeInt32 (x : Int) : (encodeInt32 x).length = 4 := length_toLE _ _

theorem length_encodeInt64 (x : Int) : (encodeInt64 x).length = 8 := length_toLE _ _

theorem decodeInt32_encodeInt32 (x : Int) (h : isInt x) : decodeInt32 (encodeInt32 x) = x := by
  unfold isInt at h
  unfold decodeInt32 encodeInt32
  rw [ofLE_toLE]
  norm_num
  split_ifs <;> omega

theorem decodeInt64_encodeInt64 (x : Int) (h : isTimeT x) :
    decodeInt64 (encodeInt64 x) = x := by
  unfold isTimeT at h
  unfold decodeInt64 encodeInt64
  rw [ofLE_toLE]
  norm_num
  split_ifs <;> omega

theorem isInt_decodeInt32 (bs : List Nat) (h : bs.length ≤ 4) : isInt (decodeInt32 bs) := by
  have h1 := ofLE_lt_of_length_le bs 4 h
  norm_num at h1
  unfold isInt decodeInt32
  split_ifs <;> omega

theorem isTimeT_decodeInt64 (bs : List Nat) (h : bs.length ≤ 8) :
    isTimeT (decodeInt64 bs) := by
  have h1 := ofLE_lt_of_length_le bs 8 h
  norm_num at h1
  unfold isTimeT decodeInt64
  split_ifs <;> omega

theorem length_fixField (n : Nat) (l : List Nat) : (fixField n l).length = n := by
  simp [fixField]

theorem fixField_of_length (n : Nat) (l : List Nat) (h : l.length = n) : fixField n l = l := by
  unfold fixField
  exact List.take_left' h

theorem length_encode (s : Student) : (encode s).length = sizeofStudent := by
  simp [encode, length_encodeInt32, length_encodeInt64, length_fixField, sizeofStudent,
    NAME_SIZE, ADDR_SIZE]

theorem decode_parts (a n ad p c u q : List Nat) (f : Nat) (ha : a.length = 4)
    (hn : n.length = 50) (had : ad.length = 100) (hp : p.length = 6) (hc : c.length = 8)
    (hu : u.length = 8) :
    decode (a ++ (n ++ (ad ++ (p ++ (c ++ (u ++ f :: q)))))) =
      { id := decodeInt32 a, name := n, address := ad, createdAt := decodeInt64 c,
        updatedAt := decodeInt64 u, isActive := f != 0 } := by
  have d4 : (a ++ (n ++ (ad ++ (p ++ (c ++ (u ++ f :: q)))))).drop 4 =
      n ++ (ad ++ (p ++ (c ++ (u ++ f :: q)))) := List.drop_left' ha
  have d54 : (a ++ (n ++ (ad ++ (p ++ (c ++ (u ++ f :: q)))))).drop 54 =
      ad ++ (p ++ (c ++ (u ++ f :: q))) := by
    have e : (a ++ (n ++ (ad ++ (p ++ (c ++ (u ++ f :: q)))))).drop 54 =
        ((a ++ (n ++ (ad ++ (p ++ (c ++ (u ++ f :: q)))))).drop 4).drop 50 := by
      rw [List.drop_drop]
    rw [e, d4]
    exact List.drop_left' hn
  have d154 : (a ++ (n ++ (ad ++ (p ++ (c ++ (u ++ f :: q)))))).drop 154 =
      p ++ (c ++ (u ++ f :: q)) := by
    have e : (a ++ (n ++ (ad ++ (p ++ (c ++ (u ++ f :: q)))))).drop 154 =
        ((a ++ (n ++ (ad ++ (p ++ (c ++ (u ++ f :: q)))))).drop 54).drop 100 := by
      rw [List.drop_drop]
    rw [e, d54]
    exact List.drop_left' had
  have d160 : (a ++ (n ++ (ad ++ (p ++ (c ++ (u ++ f :: q)))))).drop 160 =
      c ++ (u ++ f :: q) := by
    have e : (a ++ (n ++ (ad ++ (p ++ (c ++ (u ++ f :: q)))))).drop 160 =
        ((a ++ (n ++ (ad ++ (p ++ (c ++ (u ++ f :: q)))))).drop 154).drop 6 := by
      rw [List.drop_drop]
    rw [e, d154]
    exact List.drop_left' hp
  have d168 : (a ++ (n ++ (ad ++ (p ++ (c ++ (u ++ f :: q)))))).drop 168 = u ++ f :: q := by
    have e : (a ++ (n ++ (ad ++ (p ++ (c ++ (u ++ f :: q)))))).drop 168 =
        ((a ++ (n ++ (ad ++ (p ++ (c ++ (u ++ f :: q)))))).drop 160).drop 8 := by
      rw [List.drop_drop]
    rw [e, d160]
    exact List.drop_left' hc
  have d176 : (a ++ (n ++ (ad ++ (p ++ (c ++ (u ++ f :: q)))))).drop 176 = f :: q := by
    have e : (a ++ (n ++ (ad ++ (p ++ (c ++ (u ++ f :: q)))))).drop 176 =
        ((a ++ (n ++ (ad ++ (p ++ (c ++ (u ++ f :: q)))))).drop 168).drop 8 := by
      rw [List.drop_drop]
    rw [e, d168]
    exact List.drop_left' hu
  unfold decode
  rw [d4, d54, d160, d168, d176, List.take_left' ha, List.take_left' hc, List.take_left' hu]
  have t1 : (n ++ (ad ++ (p ++ (c ++ (u ++ f :: q))))).take NAME_SIZE = n := List.take_left' hn
  have t2 : (ad ++ (p ++ (c ++ (u ++ f :: q)))).take ADDR_SIZE = ad := List.take_left' had
  rw [t1, t2]
  rfl

/-- What `read` gives back after `write`: every field except the integers that
do not fit their type and arrays of the wrong size. -/
theorem decode_encode_fields (s : Student) :
    decode (encode s) =
      { id := decodeInt32 (encodeInt32 s.id), name := fixField NAME_SIZE s.name,
        address := fixField ADDR_SIZE s.address,
        createdAt := decodeInt64 (encodeInt64 s.createdAt),
        updatedAt := decodeInt64 (encodeInt64 s.updatedAt), isActive := s.isActive } := by
  unfold encode
  rw [decode_parts (encodeInt32 s.id) (fixField NAME_SIZE s.name) (fixField ADDR_SIZE s.address)
    (List.replicate 6 0) (encodeInt64 s.createdAt) (encodeInt64 s.updatedAt)
    (List.replicate 7 0) (if s.isActive then 1 else 0) (length_encodeInt32 _)
    (length_fixField _ _) (length_fixField _ _) (List.length_replicate _ _)
    (length_encodeInt64 _) (length_encodeInt64 _)]
  cases s.isActive <;> rfl

/-- Reading back a written record gives the record. -/
theorem decode_encode (s : Student) (h : s.WF) : decode (encode s) = s := by
  obtain ⟨hid, hn, ha, hc, hu⟩ := h
  rw [decode_encode_fields, decodeInt32_encodeInt32 _ hid, decodeInt64_encodeInt64 _ hc,
    decodeInt64_encodeInt64 _ hu, fixField_of_length _ _ hn, fixField_of_length _ _ ha]

theorem decode_encode_isActive (s : Student) : (decode (encode s)).isActive = s.isActive := by
  rw [decode_encode_fields]

theorem decode_encode_id (s : Student) (h : isInt s.id) : (decode (encode s)).id = s.id := by
  rw [decode_encode_fields]
  exact decodeInt32_encodeInt32 _ h

/-- Every block of `sizeof(Student)` bytes decodes to a value of the C++ type. -/
theorem decode_WF (blk : List Nat) (h : blk.length = sizeofStudent) : (decode blk).WF := by
  unfold sizeofStudent at h
  refine ⟨isInt_decodeInt32 _ (by simp), ?_, ?_, isTimeT_decodeInt64 _ (by simp),
    isTimeT_decodeInt64 _ (by simp)⟩
  · simp [decode, NAME_SIZE, h]
  · simp [decode, ADDR_SIZE, h]

theorem isInt_decode_id (blk : List Nat) : isInt (decode blk).id :=
  isInt_decodeInt32 _ (by simp)

/-! ## Reading and writing the data file -/

theorem readAt_eq_some (data : List Nat) (pos : Int) (blk : List Nat) :
    readAt data pos = some blk ↔
      0 ≤ pos ∧ pos.toNat + sizeofStudent ≤ data.length ∧
        blk = (data.drop pos.toNat).take sizeofStudent := by
  unfold readAt
  split_ifs with h
  · constructor
    · intro e
      exact ⟨h.1, h.2, (Option.some.inj e).symm⟩
    · rintro ⟨_, _, e⟩
      rw [e]
  · constructor
    · intro e
      cases e
    · rintro ⟨h1, h2, _⟩
      exact absurd ⟨h1, h2⟩ h

theorem readAt_eq_none (data : List Nat) (pos : Int) :
    readAt data pos = none ↔ ¬ (0 ≤ pos ∧ pos.toNat + sizeofStudent ≤ data.length) := by
  unfold readAt
  split_ifs with h <;> simp [h]

theorem length_of_readAt (data : List Nat) (pos : Int) (blk : List Nat)
    (h : readAt data pos = some blk) : blk.length = sizeofStudent := by
  obtain ⟨_, h2, e⟩ := (readAt_eq_some _ _ _).1 h
  rw [e, List.length_take, List.length_drop]
  omega

theorem writeAt_end (data bytes : List Nat) :
    writeAt data (data.length : Int) bytes = data ++ bytes := by
  unfold writeAt
  rw [if_neg (by omega)]
  simp

theorem writeAt_inplace (data bytes : List Nat) (pos : Int) (h0 : 0 ≤ pos)
    (h : pos.toNat + bytes.length ≤ data.length) :
    writeAt data pos bytes =
      data.take pos.toNat ++ (bytes ++ data.drop (pos.toNat + bytes.length)) := by
  unfold writeAt
  rw [if_neg (by omega)]
  have : pos.toNat - data.length = 0 := by omega
  rw [this]
  rfl

theorem length_writeAt (data bytes : List Nat) (pos : Int) (h0 : 0 ≤ pos)
    (h : pos.toNat + bytes.length ≤ data.length) :
    (writeAt data pos bytes).length = data.length := by
  rw [writeAt_inplace data bytes pos h0 h]
  simp only [List.length_append, List.length_take, List.length_drop]
  omega

theorem getElem?_writeAt (data bytes : List Nat) (pos : Int) (h0 : 0 ≤ pos)
    (h : pos.toNat + bytes.length ≤ data.length) (i : Nat) :
    (writeAt data pos bytes)[i]? =
      if pos.toNat ≤ i ∧ i < pos.toNat + bytes.length then bytes[i - pos.toNat]?
      else data[i]? := by
  rw [writeAt_inplace data bytes pos h0 h]
  have hl : (data.take pos.toNat).length = pos.toNat := by
    rw [List.length_take]
    omega
  by_cases h1 : i < pos.toNat
  · rw [List.getElem?_append_left (by omega), List.getElem?_take, if_pos h1, if_neg (by omega)]
  · rw [List.getElem?_append_right (by omega), hl]
    by_cases h2 : i < pos.toNat + bytes.length
    · rw [List.getElem?_append_left (by omega), if_pos ⟨by omega, h2⟩]
    · rw [List.getElem?_append_right (by omega), List.getElem?_drop, if_neg (by omega)]
      congr 1
      omega

theorem readAt_writeAt_same (data bytes : List Nat) (pos : Int) (h0 : 0 ≤ pos)
    (hb : bytes.length = sizeofStudent) (h : pos.toNat + sizeofStudent ≤ data.length) :
    readAt (writeAt data pos bytes) pos = some bytes := by
  have hw := writeAt_inplace data bytes pos h0 (by omega)
  rw [readAt_eq_some]
  refine ⟨h0, by rw [length_writeAt data bytes pos h0 (by omega)]; exact h, ?_⟩
  rw [hw]
  have hl : (data.take pos.toNat).length = pos.toNat := by
    rw [List.length_take]
    omega
  rw [List.drop_left' hl, List.take_left' hb]

/-- A write of one block leaves every block that does not overlap it readable
with the same contents. -/
theorem readAt_writeAt_other (data bytes : List Nat) (pos q : Int) (h0 : 0 ≤ pos)
    (hb : bytes.length = sizeofStudent) (h : pos.toNat + sizeofStudent ≤ data.length)
    (hq : q + sizeofStudent ≤ pos ∨ pos + sizeofStudent ≤ q) :
    readAt (writeAt data pos bytes) q = readAt data q := by
  have hlen := length_writeAt data bytes pos h0 (by omega)
  unfold readAt
  rw [hlen]
  split_ifs with hc
  · congr 1
    apply List.ext_getElem?
    intro i
    rw [List.getElem?_take, List.getElem?_take]
    split_ifs with hi
    · rw [List.getElem?_drop, List.getElem?_drop,
        getElem?_writeAt data bytes pos h0 (by omega), if_neg]
      unfold sizeofStudent at *
      omega
    · rfl
  · rfl

theorem readAt_append_left (data bytes : List Nat) (pos : Int) (blk : List Nat)
    (h : readAt data pos = some blk) : readAt (data ++ bytes) pos = some blk := by
  obtain ⟨h0, h1, e⟩ := (readAt_eq_some _ _ _).1 h
  rw [readAt_eq_some]
  refine ⟨h0, by rw [List.length_append]; omega, ?_⟩
  rw [e, List.drop_append_of_le_length (by omega), List.take_append_of_le_length]
  rw [List.length_drop]
  omega

theorem readAt_append_end (data bytes : List Nat) (hb : bytes.length = sizeofStudent) :
    readAt (data ++ bytes) (data.length : Int) = some bytes := by
  rw [readAt_eq_some]
  refine ⟨by omega, by rw [List.length_append]; omega, ?_⟩
  rw [Int.toNat_ofNat, List.drop_left' rfl, List.take_of_length_le (by omega)]

/-! ## The index -/

theorem Index.at_assign_same (m : Index) (k v : Int) : (m.assign k v).at k = some v := by
  induction m with
  | nil => simp [Index.assign, Index.at]
  | cons e t ih =>
    obtain ⟨a, p⟩ := e
    unfold Index.assign
    split_ifs with h
    · simp [Index.at, h]
    · simp [Index.at, h, ih]

theorem Index.at_assign_other (m : Index) (k v j : Int) (h : j ≠ k) :
    (m.assign k v).at j = m.at j := by
  induction m with
  | nil => simp [Index.assign, Index.at, Ne.symm h]
  | cons e t ih =>
    obtain ⟨a, p⟩ := e
    unfold Index.assign
    split_ifs with h1
    · subst h1
      simp [Index.at, Ne.symm h]
    · simp [Index.at, ih]

theorem Index.at_erase_same (m : Index) (k : Int) : (m.erase k).at k = none := by
  induction m with
  | nil => rfl
  | cons e t ih =>
    obtain ⟨a, p⟩ := e
    unfold Index.erase at ih ⊢
    by_cases h : a = k
    · simp [List.filter_cons, h, ih]
    · simp [List.filter_cons, h, Index.at, ih]

theorem Index.at_erase_other (m : Index) (k j : Int) (h : j ≠ k) :
    (m.erase k).at j = m.at j := by
  induction m with
  | nil => rfl
  | cons e t ih =>
    obtain ⟨a, p⟩ := e
    unfold Index.erase at ih ⊢
    by_cases h1 : a = k
    · subst h1
      simp [List.filter_cons, Index.at, Ne.symm h, ih]
    · simp [List.filter_cons, h1, Index.at, ih]

theorem Index.count_eq_zero (m : Index) (k : Int) : m.count k = 0 ↔ m.at k = none := by
  unfold Index.count
  cases m.at k <;> simp

theorem Index.count_ne_zero (m : Index) (k : Int) : m.count k ≠ 0 ↔ ∃ pos, m.at k = some pos := by
  unfold Index.count
  cases m.at k <;> simp

/-! ## Key lookup -/

theorem findStudentById_snd (db : Store) (k : Int) : (findStudentById db k).2 = db := by
  unfold findStudentById
  split_ifs
  · rfl
  · split
    · rfl
    · split
      · split_ifs <;> rfl
      · rfl

theorem findStudentById_fst (db : Store) (k : Int) :
    (findStudentById db k).1 =
      match db.id_index.at k with
      | none => none
      | some pos =>
        match readAt db.dataFile pos with
        | none => none
        | some blk =>
          if (decode blk).isActive = true ∧ (decode blk).id = k then some (decode blk) else none := by
  unfold findStudentById Index.count
  cases h : db.id_index.at k with
  | none => simp
  | some pos =>
    cases h2 : readAt db.dataFile pos with
    | none => simp [h2]
    | some blk =>
      by_cases h3 : (decode blk).isActive = true <;> by_cases h4 : (decode blk).id = k <;>
        simp [h2, h3, h4]

theorem findStudentById_eq_some (db : Store) (k : Int) (s : Student) :
    (findStudentById db k).1 = some s ↔
      ∃ pos blk, db.id_index.at k = some pos ∧ readAt db.dataFile pos = some blk ∧
        decode blk = s ∧ s.id = k ∧ s.isActive = true := by
  rw [findStudentById_fst]
  cases h : db.id_index.at k with
  | none => simp
  | some pos =>
    cases h2 : readAt db.dataFile pos with
    | none => simp [h2]
    | some blk =>
      simp only [h2, Option.some.injEq]
      constructor
      · intro e
        split_ifs at e with h3
        cases e
        exact ⟨pos, blk, rfl, h2, rfl, h3.2, h3.1⟩
      · rintro ⟨pos', blk', e1, e2, e3, e4, e5⟩
        subst e1
        rw [h2] at e2
        cases e2
        subst e3
        rw [if_pos ⟨e5, e4⟩]

theorem findStudentById_pair (db : Store) (k : Int) :
    findStudentById db k = ((findStudentById db k).1, db) := by
  conv_lhs => rw [← Prod.mk.eta (p := findStudentById db k), findStudentById_snd]

/-! ## `addStudent` -/

theorem addStudent_of_absent (db : Store) (r : Student) (h : db.id_index.count r.id = 0) :
    addStudent db r =
      (true, { dataFile := db.dataFile ++ encode r
               id_index := db.id_index.assign r.id (db.dataFile.length : Int) }) := by
  unfold addStudent
  simp [h, writeAt_end]

/-- C1: when the index does not contain `r.id` and `r` is a well-formed active
record, `addStudent` returns true, appends the block of `r` at the offset equal
to the former length of the data file, registers `r.id` at that offset, and
`findStudentById r.id` then returns exactly `r`. -/
theorem addStudent_then_find (db : Store) (r : Student) (hr : r.WF)
    (hact : r.isActive = true) (hnew : db.id_index.count r.id = 0) :
    (addStudent db r).1 = true ∧
      (addStudent db r).2.dataFile = db.dataFile ++ encode r ∧
      readAt (addStudent db r).2.dataFile (db.dataFile.length : Int) = some (encode r) ∧
      (addStudent db r).2.id_index = db.id_index.assign r.id (db.dataFile.length : Int) ∧
      (addStudent db r).2.id_index.at r.id = some (db.dataFile.length : Int) ∧
      (findStudentById (addStudent db r).2 r.id).1 = some r := by
  rw [addStudent_of_absent db r hnew]
  refine ⟨rfl, rfl, readAt_append_end _ _ (length_encode r), rfl,
    Index.at_assign_same _ _ _, ?_⟩
  rw [findStudentById_eq_some]
  exact ⟨_, _, Index.at_assign_same _ _ _, readAt_append_end _ _ (length_encode r),
    decode_encode r hr, rfl, hact⟩

set_option maxRecDepth 100000 in
theorem addStudent_then_find_witness :
    sampleStudent.WF ∧ sampleStudent.isActive = true ∧
      Store.fresh.id_index.count sampleStudent.id = 0 ∧
      (findStudentById (addStudent Store.fresh sampleStudent).2 sampleStudent.id).1 =
        some sampleStudent :=
  ⟨by decide, by decide, by decide,
    (addStudent_then_find Store.fresh sampleStudent (by decide) (by decide)
      (by decide)).2.2.2.2.2⟩

/-- C2: when the index already contains `r.id`, `addStudent` returns false and
the store (data file and index) is exactly as before. -/
theorem addStudent_duplicate (db : Store) (r : Student) (hdup : db.id_index.count r.id ≠ 0) :
    (addStudent db r).1 = false ∧ (addStudent db r).2 = db ∧
      (addStudent db r).2.dataFile = db.dataFile ∧
      (addStudent db r).2.dataFile.length = db.dataFile.length ∧
      (addStudent db r).2.id_index = db.id_index := by
  have e : addStudent db r = (false, db) := by
    unfold addStudent
    simp [hdup]
  rw [e]
  exact ⟨rfl, rfl, rfl, rfl, rfl⟩

set_option maxRecDepth 100000 in
theorem addStudent_duplicate_witness :
    sampleStore.id_index.count sampleStudent.id ≠ 0 ∧
      (addStudent sampleStore sampleStudent).1 = false ∧
      (addStudent sampleStore sampleStudent).2 = sampleStore :=
  ⟨by decide, (addStudent_duplicate sampleStore sampleStudent (by decide)).1,
    (addStudent_duplicate sampleStore sampleStudent (by decide)).2.1⟩

/-! ## `findStudentById` -/

/-- C6: in every store state, `findStudentById k` returns `s` exactly when the
index holds `k`, a full block can be read at the indexed offset and the block
decodes to `s` with `s.id = k` and `s.isActive = true`; otherwise it returns
nothing; and the store it hands back is the store it was given. -/
theorem findStudentById_spec (db : Store) (k : Int) :
    (∀ s, (findStudentById db k).1 = some s ↔
        ∃ pos blk, db.id_index.at k = some pos ∧ readAt db.dataFile pos = some blk ∧
          decode blk = s ∧ s.id = k ∧ s.isActive = true) ∧
      ((¬ ∃ pos blk, db.id_index.at k = some pos ∧ readAt db.dataFile pos = some blk ∧
          (decode blk).id = k ∧ (decode blk).isActive = true) →
        (findStudentById db k).1 = none) ∧
      (findStudentById db k).2 = db ∧
      (findStudentById db k).2.id_index = db.id_index ∧
      (findStudentById db k).2.dataFile = db.dataFile := by
  refine ⟨fun s => findStudentById_eq_some db k s, ?_, findStudentById_snd db k,
    by rw [findStudentById_snd], by rw [findStudentById_snd]⟩
  intro hno
  cases hf : (findStudentById db k).1 with
  | none => rfl
  | some s =>
    obtain ⟨pos, blk, h1, h2, h3, h4, h5⟩ := (findStudentById_eq_some db k s).1 hf
    subst h3
    exact absurd ⟨pos, blk, h1, h2, h4, h5⟩ hno

/-! ## Failed `updateStudent` and `deleteStudent` -/

theorem updateStudent_of_not_found (db : Store) (k : Int) (n a : List Nat) (t : Int)
    (h : (findStudentById db k).1 = none) : updateStudent db k n a t = (false, db) := by
  unfold updateStudent
  rw [findStudentById_pair, h]

theorem deleteStudent_of_not_found (db : Store) (k : Int) (t : Int)
    (h : (findStudentById db k).1 = none) : deleteStudent db k t = (false, db) := by
  unfold deleteStudent
  rw [findStudentById_pair, h]
  split_ifs <;> rfl

/-- C7: when `findStudentById k` returns nothing, `updateStudent` and
`deleteStudent` both return false and leave the data file and the index as
they were. -/
theorem update_delete_not_found (db : Store) (k : Int) (n a : List Nat) (t : Int)
    (h : (findStudentById db k).1 = none) :
    updateStudent db k n a t = (false, db) ∧ deleteStudent db k t = (false, db) := by
  exact ⟨updateStudent_of_not_found db k n a t h, deleteStudent_of_not_found db k t h⟩

set_option maxRecDepth 100000 in
theorem update_delete_not_found_witness :
    (findStudentById staleStore 7).1 = none ∧
      updateStudent staleStore 7 [66] [67] 2000 = (false, staleStore) ∧
      deleteStudent staleStore 7 2000 = (false, staleStore) :=
  ⟨by decide, update_delete_not_found staleStore 7 [66] [67] 2000 (by decide)⟩

/-! ## Bounded text -/

theorem length_strncpy (src : List Nat) (n : Nat) : (strncpy src n).length = n := by
  unfold strncpy
  rw [List.length_append, List.length_replicate, List.length_take]
  omega

theorem length_setText (size : Nat) (src : List Nat) (h : 0 < size) :
    (setText size src).length = size := by
  unfold setText
  rw [List.length_append, length_strncpy, List.length_singleton]
  omega

theorem cstr_setText (size : Nat) (src : List Nat) :
    cstr (setText size src) = (cstr src).take (size - 1) := by
  unfold cstr setText strncpy
  rw [List.append_assoc, List.takeWhile_append_of_pos]
  · have hz : ∀ m : Nat, List.takeWhile (fun b => b != 0) (List.replicate m 0 ++ [0]) = [] := by
      intro m
      cases m <;> simp [List.replicate_succ]
    rw [hz, List.append_nil]
  · intro b hb
    have hb2 : b ∈ List.takeWhile (fun b => b != 0) src := List.mem_of_mem_take hb
    have hb3 := List.mem_takeWhile_imp hb2
    exact hb3

theorem cstr_of_no_nul (src : List Nat) (h : ∀ b ∈ src, b ≠ 0) : cstr src = src := by
  unfold cstr
  rw [List.takeWhile_eq_self_iff]
  intro b hb
  simpa using h b hb

theorem applyUpdate_WF (s : Student) (n a : List Nat) (t : Int) (hs : s.WF) (ht : isTimeT t) :
    (applyUpdate s n a t).WF := by
  obtain ⟨h1, _, _, h4, _⟩ := hs
  exact ⟨h1, length_setText _ _ (by decide), length_setText _ _ (by decide), h4, ht⟩

theorem markDeleted_WF (s : Student) (t : Int) (hs : s.WF) (ht : isTimeT t) :
    (markDeleted s t).WF := by
  obtain ⟨h1, h2, h3, h4, _⟩ := hs
  exact ⟨h1, h2, h3, h4, ht⟩

/-! ## Successful `updateStudent` and `deleteStudent` -/

/-- What a successful lookup says about the indexed slot. -/
theorem slot_of_found (db : Store) (k : Int) (s : Student)
    (h : (findStudentById db k).1 = some s) :
    ∃ pos, db.id_index.at k = some pos ∧ 0 ≤ pos ∧
      pos.toNat + sizeofStudent ≤ db.dataFile.length ∧
      readAt db.dataFile pos = some ((db.dataFile.drop pos.toNat).take sizeofStudent) ∧
      decode ((db.dataFile.drop pos.toNat).take sizeofStudent) = s ∧ s.WF ∧ s.id = k ∧
      s.isActive = true := by
  obtain ⟨pos, blk, h1, h2, h3, h4, h5⟩ := (findStudentById_eq_some db k s).1 h
  obtain ⟨h6, h7, h8⟩ := (readAt_eq_some _ _ _).1 h2
  have hw : s.WF := by
    rw [← h3]
    exact decode_WF blk (length_of_readAt _ _ _ h2)
  subst h8
  exact ⟨pos, h1, h6, h7, h2, h3, hw, h4, h5⟩

theorem updateStudent_of_found (db : Store) (k : Int) (s : Student) (n a : List Nat) (t pos : Int)
    (h : (findStudentById db k).1 = some s) (hp : db.id_index.at k = some pos) :
    updateStudent db k n a t =
      (true, { dataFile := writeAt db.dataFile pos (encode (applyUpdate s n a t))
               id_index := db.id_index }) := by
  unfold updateStudent
  rw [findStudentById_pair, h]
  simp only [hp]

theorem deleteStudent_of_found (db : Store) (k : Int) (s : Student) (t pos : Int)
    (h : (findStudentById db k).1 = some s) (hp : db.id_index.at k = some pos) :
    deleteStudent db k t =
      (true, { dataFile := writeAt db.dataFile pos (encode (markDeleted s t))
               id_index := db.id_index.erase k }) := by
  unfold deleteStudent
  rw [findStudentById_pair, h]
  have hc : db.id_index.count k ≠ 0 := (Index.count_ne_zero _ _).2 ⟨pos, hp⟩
  simp only [hp]
  simp [hc]

theorem deleteStudent_fst (db : Store) (k : Int) (t : Int) :
    (deleteStudent db k t).1 = (findStudentById db k).1.isSome := by
  cases hf : (findStudentById db k).1 with
  | none => rw [deleteStudent_of_not_found db k t hf]; rfl
  | some s =>
    obtain ⟨pos, hp, _⟩ := slot_of_found db k s hf
    rw [deleteStudent_of_found db k s t pos hf hp]
    rfl

set_option maxRecDepth 100000 in
/-- C4, as stated, fails for a new name holding a NUL byte: after updating the
sample record with the three-byte name `A\0B`, the name found is `A` followed
by NULs, which is neither the three bytes given nor those bytes NUL-padded. -/
theorem updateStudent_nul_name_counterexample :
    (findStudentById sampleStore 7).1 = some sampleStudent ∧
      (updateStudent sampleStore 7 [65, 0, 66] [82, 100] 2000).1 = true ∧
      ((findStudentById (updateStudent sampleStore 7 [65, 0, 66] [82, 100] 2000).2 7).1.map
        (fun s => s.name)) = some (65 :: List.replicate 49 0) ∧
      ((findStudentById (updateStudent sampleStore 7 [65, 0, 66] [82, 100] 2000).2 7).1.map
        (fun s => cstr s.name)) ≠ some ([65, 0, 66].take 49) ∧
      ((findStudentById (updateStudent sampleStore 7 [65, 0, 66] [82, 100] 2000).2 7).1.map
        (fun s => s.name)) ≠ some (fixField NAME_SIZE ([65, 0, 66].take 49)) := by
  decide

/-- C4 (amended): when `findStudentById k` returns `s`, `updateStudent` at time
`t` returns true and rewrites only the slot at the indexed offset (index, file
length, every byte outside the slot and every other slot unchanged);
`findStudentById k` then returns the record with the id and `createdAt` of
`s`, `isActive = true`, `updatedAt = t`, and as name (address) the bytes of the
new name (address) before its first NUL, cut to at most 49 (99) bytes, which
is the new value itself cut to that length when it holds no NUL. -/
theorem updateStudent_spec (db : Store) (k : Int) (s : Student) (newName newAddress : List Nat)
    (t : Int) (hfind : (findStudentById db k).1 = some s) (ht : isTimeT t) :
    (updateStudent db k newName newAddress t).1 = true ∧
      (updateStudent db k newName newAddress t).2.id_index = db.id_index ∧
      (updateStudent db k newName newAddress t).2.dataFile.length = db.dataFile.length ∧
      (∃ pos, db.id_index.at k = some pos ∧
        (updateStudent db k newName newAddress t).2.dataFile =
          writeAt db.dataFile pos (encode (applyUpdate s newName newAddress t)) ∧
        (∀ i : Nat, i < pos.toNat ∨ pos.toNat + sizeofStudent ≤ i →
          (updateStudent db k newName newAddress t).2.dataFile[i]? = db.dataFile[i]?) ∧
        (∀ q : Int, q + sizeofStudent ≤ pos ∨ pos + sizeofStudent ≤ q →
          readAt (updateStudent db k newName newAddress t).2.dataFile q =
            readAt db.dataFile q)) ∧
      (findStudentById (updateStudent db k newName newAddress t).2 k).1 =
        some { id := s.id, name := setText NAME_SIZE newName,
               address := setText ADDR_SIZE newAddress, createdAt := s.createdAt,
               updatedAt := t, isActive := true } ∧
      cstr (setText NAME_SIZE newName) = (cstr newName).take 49 ∧
      cstr (setText ADDR_SIZE newAddress) = (cstr newAddress).take 99 ∧
      ((∀ b ∈ newName, b ≠ 0) → cstr (setText NAME_SIZE newName) = newName.take 49) ∧
      ((∀ b ∈ newAddress, b ≠ 0) → cstr (setText ADDR_SIZE newAddress) = newAddress.take 99) := by
  obtain ⟨pos, hp, h0, hlen, _, _, hwf, hid, hact⟩ := slot_of_found db k s hfind
  have hl := length_encode (applyUpdate s newName newAddress t)
  rw [updateStudent_of_found db k s newName newAddress t pos hfind hp]
  refine ⟨rfl, rfl, length_writeAt _ _ _ h0 (by omega), ⟨pos, hp, rfl, ?_, ?_⟩, ?_,
    cstr_setText _ _, cstr_setText _ _, ?_, ?_⟩
  · intro i hi
    show (writeAt db.dataFile pos (encode (applyUpdate s newName newAddress t)))[i]? = _
    rw [getElem?_writeAt _ _ _ h0 (by omega), if_neg (by omega)]
  · intro q hq
    exact readAt_writeAt_other _ _ _ _ h0 hl hlen hq
  · rw [findStudentById_eq_some]
    refine ⟨pos, _, hp, readAt_writeAt_same _ _ _ h0 hl hlen, ?_, hid, rfl⟩
    rw [decode_encode _ (applyUpdate_WF s _ _ t hwf ht)]
    unfold applyUpdate
    rw [hact]
  · intro hn
    rw [cstr_setText, cstr_of_no_nul _ hn]
    rfl
  · intro hn
    rw [cstr_setText, cstr_of_no_nul _ hn]
    rfl

set_option maxRecDepth 100000 in
theorem updateStudent_spec_witness :
    (findStudentById sampleStore 7).1 = some sampleStudent ∧ isTimeT 2000 ∧
      (findStudentById (updateStudent sampleStore 7 [66, 111] [67] 2000).2 7).1 =
        some { id := sampleStudent.id, name := setText NAME_SIZE [66, 111],
               address := setText ADDR_SIZE [67], createdAt := sampleStudent.createdAt,
               updatedAt := 2000, isActive := true } :=
  ⟨by decide, by decide,
    (updateStudent_spec sampleStore 7 sampleStudent [66, 111] [67] 2000 (by decide)
      (by decide)).2.2.2.2.1⟩

/-- C5: when `deleteStudent k` at time `t` returns true, the length of the data
file is unchanged, every byte outside the slot at the former offset of `k` and
every other slot is unchanged, that slot holds the record found before with
`isActive = false` and `updatedAt = t` (same id, name, address, createdAt), and
the index is the old one with exactly the key `k` removed. -/
theorem deleteStudent_in_place (db : Store) (k : Int) (t : Int)
    (hdel : (deleteStudent db k t).1 = true) (ht : isTimeT t) :
    (deleteStudent db k t).2.dataFile.length = db.dataFile.length ∧
      (deleteStudent db k t).2.id_index = db.id_index.erase k ∧
      (∀ j, (deleteStudent db k t).2.id_index.at j =
        if j = k then none else db.id_index.at j) ∧
      ∃ pos blk, db.id_index.at k = some pos ∧ readAt db.dataFile pos = some blk ∧
        (decode blk).id = k ∧ (decode blk).isActive = true ∧
        (∀ i : Nat, i < pos.toNat ∨ pos.toNat + sizeofStudent ≤ i →
          (deleteStudent db k t).2.dataFile[i]? = db.dataFile[i]?) ∧
        (∀ q : Int, q + sizeofStudent ≤ pos ∨ pos + sizeofStudent ≤ q →
          readAt (deleteStudent db k t).2.dataFile q = readAt db.dataFile q) ∧
        ∃ blk2, readAt (deleteStudent db k t).2.dataFile pos = some blk2 ∧
          decode blk2 =
            { id := (decode blk).id, name := (decode blk).name,
              address := (decode blk).address, createdAt := (decode blk).createdAt,
              updatedAt := t, isActive := false } := by
  cases hf : (findStudentById db k).1 with
  | none =>
    rw [deleteStudent_of_not_found db k t hf] at hdel
    cases hdel
  | some s =>
    obtain ⟨pos, hp, h0, hlen, hrd, hdec, hwf, hid, hact⟩ := slot_of_found db k s hf
    have hl := length_encode (markDeleted s t)
    rw [deleteStudent_of_found db k s t pos hf hp]
    refine ⟨length_writeAt _ _ _ h0 (by omega), rfl, ?_, pos, _, hp, hrd,
      by rw [hdec]; exact hid, by rw [hdec]; exact hact, ?_, ?_,
      encode (markDeleted s t), readAt_writeAt_same _ _ _ h0 hl hlen, ?_⟩
    · intro j
      show (db.id_index.erase k).at j = _
      split_ifs with hj
      · rw [hj, Index.at_erase_same]
      · rw [Index.at_erase_other _ _ _ hj]
    · intro i hi
      show (writeAt db.dataFile pos (encode (markDeleted s t)))[i]? = _
      rw [getElem?_writeAt _ _ _ h0 (by omega), if_neg (by omega)]
    · intro q hq
      exact readAt_writeAt_other _ _ _ _ h0 hl hlen hq
    · rw [decode_encode _ (markDeleted_WF s t hwf ht), hdec]
      rfl

set_option maxRecDepth 100000 in
theorem deleteStudent_in_place_witness :
    (deleteStudent sampleStore 7 2000).1 = true ∧ isTimeT 2000 ∧
      (deleteStudent sampleStore 7 2000).2.dataFile.length = sampleStore.dataFile.length ∧
      (deleteStudent sampleStore 7 2000).2.id_index = sampleStore.id_index.erase 7 :=
  ⟨by decide, by decide,
    (deleteStudent_in_place sampleStore 7 2000 (by decide) (by decide)).1,
    (deleteStudent_in_place sampleStore 7 2000 (by decide) (by decide)).2.1⟩

set_option maxRecDepth 100000 in
/-- C8, as stated, fails on a stale index: the index of `staleStore` contains
the key 7, yet `deleteStudent 7` returns false and the index still contains 7. -/
theorem deleteStudent_stale_counterexample :
    staleStore.id_index.count 7 ≠ 0 ∧ (deleteStudent staleStore 7 2000).1 = false ∧
      (deleteStudent staleStore 7 2000).2.id_index.count 7 ≠ 0 := by
  decide

/-- C8 (amended): in every store state, `deleteStudent k` fails exactly when
`findStudentById k` returns nothing, which includes every `k` absent from the
index; whenever `findStudentById k` returns a record (the index contains `k`
and the indexed slot holds an active record with id `k`), `deleteStudent k`
returns true and the index no longer contains `k` afterwards. -/
theorem deleteStudent_fails_iff (db : Store) (k : Int) (t : Int) :
    ((deleteStudent db k t).1 = false ↔ (findStudentById db k).1 = none) ∧
      (db.id_index.count k = 0 → (deleteStudent db k t).1 = false) ∧
      ((findStudentById db k).1 ≠ none →
        db.id_index.count k ≠ 0 ∧ (deleteStudent db k t).1 = true ∧
          (deleteStudent db k t).2.id_index.count k = 0) := by
  refine ⟨?_, ?_, ?_⟩
  · rw [deleteStudent_fst]
    cases (findStudentById db k).1 <;> simp
  · intro hc
    unfold deleteStudent
    simp [hc]
  · intro hne
    cases hf : (findStudentById db k).1 with
    | none => exact absurd hf hne
    | some s =>
      obtain ⟨pos, hp, _⟩ := slot_of_found db k s hf
      rw [deleteStudent_of_found db k s t pos hf hp]
      exact ⟨(Index.count_ne_zero _ _).2 ⟨pos, hp⟩, rfl,
        (Index.count_eq_zero _ _).2 (Index.at_erase_same _ _)⟩

/-! ## The scan loop -/

theorem readAt_slot (data : List Nat) (i : Nat) (h : i < data.length / sizeofStudent) :
    readAt data ((i * sizeofStudent : Nat) : Int) = some (slot data i) := by
  rw [readAt_eq_some]
  have h1 : (i + 1) * sizeofStudent ≤ data.length :=
    le_trans (Nat.mul_le_mul_right _ h) (Nat.div_mul_le_self _ _)
  refine ⟨by omega, ?_, rfl⟩
  rw [Int.toNat_ofNat]
  linarith

theorem readAt_past_end (data : List Nat) (i : Nat) (h : data.length / sizeofStudent ≤ i) :
    readAt data ((i * sizeofStudent : Nat) : Int) = none := by
  rw [readAt_eq_none, Int.toNat_ofNat]
  rintro ⟨_, h2⟩
  have h3 : (i + 1) * sizeofStudent ≤ data.length := by linarith
  have h4 : i + 1 ≤ data.length / sizeofStudent :=
    (Nat.le_div_iff_mul_le (by decide)).2 h3
  omega

theorem length_records (data : List Nat) : (records data).length = data.length / sizeofStudent := by
  simp [records]

theorem getElem_records (data : List Nat) (i : Nat) (h : i < (records data).length) :
    (records data)[i] = decode (slot data i) := by
  simp [records]

theorem readLoop_from (σ : Type) (body : σ → Student → σ) (data : List Nat) (fuel i : Nat)
    (st : σ) (h : data.length / sizeofStudent ≤ fuel + i) :
    readLoop body data fuel ((i * sizeofStudent : Nat) : Int) st =
      ((records data).drop i).foldl body st := by
  induction fuel generalizing i st with
  | zero =>
    rw [List.drop_eq_nil_of_le (by rw [length_records]; omega)]
    rfl
  | succ fuel ih =>
    unfold readLoop
    by_cases hi : i < data.length / sizeofStudent
    · rw [readAt_slot data i hi]
      have hn : i < (records data).length := by rw [length_records]; exact hi
      rw [List.drop_eq_getElem_cons hn, List.foldl_cons, getElem_records]
      have e : (((i * sizeofStudent : Nat) : Int) + (sizeofStudent : Int)) =
          (((i + 1) * sizeofStudent : Nat) : Int) := by
        push_cast
        ring
      simp only [e]
      exact ih (i + 1) _ (by omega)
    · rw [readAt_past_end data i (by omega),
        List.drop_eq_nil_of_le (by rw [length_records]; omega)]
      rfl

/-- The scan loop reads every record of the file once, in file order; the
fuel given by the callers is enough. -/
theorem readLoop_eq_foldl (σ : Type) (body : σ → Student → σ) (data : List Nat) (st : σ) :
    readLoop body data data.length 0 st = (records data).foldl body st := by
  have h := readLoop_from σ body data data.length 0 st
    (by simpa using Nat.div_le_self data.length sizeofStudent)
  simpa using h

theorem listBody_eq (skip ps : Int) :
    listBody skip ps = pageStep (fun s => s.isActive) skip ps := rfl

theorem searchBody_eq (lq : List Nat) (byName : Bool) (skip ps : Int) :
    searchBody lq byName skip ps =
      pageStep (fun s => s.isActive && fieldMatches lq byName s) skip ps := by
  funext st s
  unfold searchBody pageStep
  by_cases h1 : s.isActive = true <;> by_cases h2 : fieldMatches lq byName s = true <;>
    simp [h1, h2]

theorem take_drop_snoc {α : Type} (A : List α) (s : α) (k m : Nat) :
    ((A ++ [s]).drop k).take m =
      if k ≤ A.length ∧ ((A.drop k).take m).length < m then (A.drop k).take m ++ [s]
      else (A.drop k).take m := by
  by_cases hk : k ≤ A.length
  · rw [List.drop_append_of_le_length hk]
    by_cases hX : (A.drop k).length < m
    · rw [if_pos ⟨hk, by rw [List.length_take]; omega⟩,
        List.take_of_length_le (by rw [List.length_append, List.length_singleton]; omega),
        List.take_of_length_le (by omega)]
    · rw [if_neg (by rw [List.length_take]; omega),
        List.take_append_of_le_length (by omega)]
  · rw [if_neg (by omega), List.drop_eq_nil_of_le (by simp; omega),
      List.drop_eq_nil_of_le (by omega)]

theorem wrapInt_of_isInt (x : Int) (h : isInt x) : wrapInt x = x := by
  unfold isInt at h
  unfold wrapInt
  omega

/-- The page and the count built by a loop body of the common shape, as long
as the `int` counter does not overflow. -/
theorem foldl_pageStep (p : Student → Bool) (skip ps : Int) (hps : 0 ≤ ps)
    (hps2 : ps < 18446744073709551616) (L : List Student)
    (hL : ((L.filter p).length : Int) ≤ 2147483647) :
    L.foldl (pageStep p skip ps) ([], 0) =
      (((L.filter p).drop skip.toNat).take ps.toNat, ((L.filter p).length : Int)) := by
  induction L using List.reverseRecOn with
  | nil => simp
  | append_singleton L s ih =>
    have hsub : (L.filter p).length ≤ ((L ++ [s]).filter p).length := by
      rw [List.filter_append, List.length_append]
      omega
    rw [List.foldl_append, ih (by omega), List.foldl_cons, List.foldl_nil]
    unfold pageStep
    by_cases hp : p s = true
    · have hf : (L ++ [s]).filter p = L.filter p ++ [s] := by
        rw [List.filter_append]
        simp [hp]
      rw [hf, List.length_append, List.length_singleton] at hL
      rw [if_pos hp, hf, take_drop_snoc]
      have hw : wrapInt (((L.filter p).length : Int) + 1) = (((L.filter p).length + 1 : Nat) : Int) := by
        rw [wrapInt_of_isInt _ (by unfold isInt; omega)]
        rfl
      have ht : toSizeT ps = ps := by
        unfold toSizeT
        omega
      rw [hw, ht, List.length_append, List.length_singleton]
      refine Prod.ext ?_ rfl
      dsimp only
      by_cases hc : skip.toNat ≤ (L.filter p).length ∧
          (((L.filter p).drop skip.toNat).take ps.toNat).length < ps.toNat
      · rw [if_pos hc, if_pos]
        obtain ⟨h1, h2⟩ := hc
        omega
      · rw [if_neg hc, if_neg]
        intro hc2
        apply hc
        obtain ⟨h1, h2⟩ := hc2
        omega
    · have hf : (L ++ [s]).filter p = L.filter p := by
        rw [List.filter_append]
        simp [hp]
      rw [if_neg hp, hf]

/-! ## Pages -/

theorem getAllStudents_eq (db : Store) (pn ps : Int) (hps : 0 ≤ ps)
    (hps2 : ps < 18446744073709551616)
    (hL : ((activeRecords db.dataFile).length : Int) ≤ 2147483647) :
    getAllStudents db pn ps =
      { students := ((activeRecords db.dataFile).drop
          (wrapInt (wrapInt (pn - 1) * ps)).toNat).take ps.toNat
        currentPage := pn
        totalPages := pageCount ((activeRecords db.dataFile).length : Int) ps
        totalRecords := ((activeRecords db.dataFile).length : Int) } := by
  unfold getAllStudents
  simp only [readLoop_eq_foldl, listBody_eq]
  rw [foldl_pageStep _ _ _ hps hps2 _ hL]
  rfl

theorem searchBy_eq (db : Store) (query : List Nat) (byName : Bool) (pn ps : Int) (hps : 0 ≤ ps)
    (hps2 : ps < 18446744073709551616)
    (hL : ((matchingRecords db.dataFile query byName).length : Int) ≤ 2147483647) :
    searchBy db query byName pn ps =
      { students := ((matchingRecords db.dataFile query byName).drop
          (wrapInt (wrapInt (pn - 1) * ps)).toNat).take ps.toNat
        currentPage := pn
        totalPages := pageCount ((matchingRecords db.dataFile query byName).length : Int) ps
        totalRecords := ((matchingRecords db.dataFile query byName).length : Int) } := by
  unfold searchBy
  simp only [readLoop_eq_foldl, searchBody_eq]
  rw [foldl_pageStep _ _ _ hps hps2 _ hL]
  rfl

theorem length_matchingRecords_le (data query : List Nat) (byName : Bool) :
    (matchingRecords data query byName).length ≤ (activeRecords data).length := by
  unfold matchingRecords activeRecords
  apply List.Sublist.length_le
  apply List.monotone_filter_right
  intro s hs
  simp only [Bool.and_eq_true] at hs
  exact hs.1

theorem pageCount_eq (total ps : Int) (h0 : 0 ≤ total) (h1 : 1 ≤ ps)
    (h2 : total + ps ≤ 2147483647) : pageCount total ps = max 1 ((total + ps - 1) / ps) := by
  have hq0 : 0 ≤ (total + ps - 1) / ps := Int.ediv_nonneg (by omega) (by omega)
  have hq1 : (total + ps - 1) / ps ≤ total + ps - 1 := Int.ediv_le_self _ (by omega)
  unfold pageCount
  rw [wrapInt_of_isInt (total + ps) (by unfold isInt; omega),
    wrapInt_of_isInt (total + ps - 1) (by unfold isInt; omega),
    Int.tdiv_eq_ediv (by omega) (by omega),
    wrapInt_of_isInt _ (by unfold isInt; omega)]
  dsimp only
  split_ifs with h
  · rw [h]
    rfl
  · rw [max_eq_right (by omega)]

theorem ceil_div_eq (a b : Int) (hb : 1 ≤ b) :
    ⌈(a : ℚ) / (b : ℚ)⌉ = (a + b - 1) / b := by
  have hbq : (0 : ℚ) < (b : ℚ) := by exact_mod_cast (by omega : (0 : Int) < b)
  have e := Int.ediv_add_emod (a + b - 1) b
  have r0 := Int.emod_nonneg (a + b - 1) (by omega : b ≠ 0)
  have r1 := Int.emod_lt_of_pos (a + b - 1) (by omega : (0 : Int) < b)
  rw [Int.ceil_eq_iff]
  constructor
  · rw [lt_div_iff₀ hbq]
    have h : ((a + b - 1) / b - 1) * b < a := by linarith
    exact_mod_cast h
  · rw [div_le_iff₀ hbq]
    have h : a ≤ (a + b - 1) / b * b := by linarith
    exact_mod_cast h

set_option maxRecDepth 100000 in
/-- C9, as stated, fails where `(pageNumber - 1) * pageSize` overflows `int`:
with five active records, page size 5 and page number 858993461 the product
4294967300 wraps to 4, and the page holds the fifth record, while the list of
active records with the first 4294967300 dropped is empty. -/
theorem getAllStudents_overflow_counterexample :
    (1 : Int) ≤ 5 ∧ (1 : Int) ≤ 858993461 ∧ isInt 858993461 ∧
      (getAllStudents (storeOfSize 5) 858993461 5).students.map (fun s => s.id) = [5] ∧
      ((activeRecords (storeOfSize 5).dataFile).drop
        ((858993461 - 1) * 5 : Int).toNat).take (5 : Int).toNat = [] ∧
      (getAllStudents (storeOfSize 5) 858993461 5).students ≠
        ((activeRecords (storeOfSize 5).dataFile).drop
          ((858993461 - 1) * 5 : Int).toNat).take (5 : Int).toNat := by
  decide

/-- C9 (amended): for every data file with fewer than 2^31 active records and
all `int` values `pageSize >= 1`, `pageNumber >= 1` whose product
`(pageNumber - 1) * pageSize` does not overflow `int`, `getAllStudents` returns
the active records of the file in file order with the first
`(pageNumber - 1) * pageSize` dropped and then at most `pageSize` taken: the
record at position `i` of the page is the active record with running index
`(pageNumber - 1) * pageSize + i`, and the page holds
`min pageSize (active - (pageNumber - 1) * pageSize)` records (so with 12 active
records and page size 5, page 3 holds 2 records and page 4 holds none). -/
theorem getAllStudents_page (db : Store) (pageNumber pageSize : Int) (hps : 1 ≤ pageSize)
    (hpn : 1 ≤ pageNumber) (hpsInt : isInt pageSize)
    (hskip : (pageNumber - 1) * pageSize ≤ 2147483647)
    (hcount : ((activeRecords db.dataFile).length : Int) ≤ 2147483647) :
    (getAllStudents db pageNumber pageSize).students =
        ((activeRecords db.dataFile).drop ((pageNumber - 1) * pageSize).toNat).take
          pageSize.toNat ∧
      (∀ i : Nat, (getAllStudents db pageNumber pageSize).students[i]? =
        if i < pageSize.toNat then
          (activeRecords db.dataFile)[((pageNumber - 1) * pageSize).toNat + i]?
        else none) ∧
      (getAllStudents db pageNumber pageSize).students.length =
        min pageSize.toNat
          ((activeRecords db.dataFile).length - ((pageNumber - 1) * pageSize).toNat) ∧
      (getAllStudents db pageNumber pageSize).currentPage = pageNumber ∧
      ((activeRecords db.dataFile).length = 12 → pageSize = 5 →
        (pageNumber = 3 → (getAllStudents db pageNumber pageSize).students.length = 2) ∧
        (pageNumber = 4 → (getAllStudents db pageNumber pageSize).students.length = 0)) := by
  unfold isInt at hpsInt
  have h0 : 0 ≤ (pageNumber - 1) * pageSize := mul_nonneg (by omega) (by omega)
  have h1 : pageNumber - 1 ≤ (pageNumber - 1) * pageSize :=
    le_mul_of_one_le_right (by omega) hps
  have hw : wrapInt (wrapInt (pageNumber - 1) * pageSize) = (pageNumber - 1) * pageSize := by
    rw [wrapInt_of_isInt (pageNumber - 1) (by unfold isInt; omega),
      wrapInt_of_isInt _ (by unfold isInt; omega)]
  rw [getAllStudents_eq db pageNumber pageSize (by omega) (by omega) hcount, hw]
  refine ⟨rfl, ?_, ?_, rfl, ?_⟩
  · intro i
    dsimp only
    rw [List.getElem?_take, List.getElem?_drop]
  · dsimp only
    rw [List.length_take, List.length_drop]
  · intro h12 h5
    subst h5
    dsimp only
    rw [List.length_take, List.length_drop, h12]
    constructor
    · intro h3
      subst h3
      decide
    · intro h4
      subst h4
      decide

set_option maxRecDepth 100000 in
theorem getAllStudents_page_witness :
    (1 : Int) ≤ 2 ∧ (1 : Int) ≤ 3 ∧ isInt 2 ∧ ((3 - 1) * 2 : Int) ≤ 2147483647 ∧
      ((activeRecords (storeOfSize 5).dataFile).length : Int) ≤ 2147483647 ∧
      (getAllStudents (storeOfSize 5) 3 2).students =
        ((activeRecords (storeOfSize 5).dataFile).drop ((3 - 1) * 2 : Int).toNat).take
          (2 : Int).toNat :=
  ⟨by decide, by decide, by decide, by decide, by decide,
    (getAllStudents_page (storeOfSize 5) 3 2 (by decide) (by decide) (by decide) (by decide)
      (by decide)).1⟩

set_option maxRecDepth 100000 in
/-- C10, as stated, fails where `totalRecords + pageSize - 1` overflows `int`:
with two active records and page size 2147483647, `getAllStudents` and
`searchBy` (empty query) report `totalRecords = 2` and `totalPages = -1`,
which is not `max(1, ceil(2 / 2147483647))`. -/
theorem totalPages_overflow_counterexample :
    (1 : Int) ≤ 2147483647 ∧ isInt 2147483647 ∧
      (getAllStudents (storeOfSize 2) 1 2147483647).totalRecords = 2 ∧
      (getAllStudents (storeOfSize 2) 1 2147483647).totalPages = -1 ∧
      (searchBy (storeOfSize 2) [] true 1 2147483647).totalRecords = 2 ∧
      (searchBy (storeOfSize 2) [] true 1 2147483647).totalPages = -1 ∧
      (getAllStudents (storeOfSize 2) 1 2147483647).totalPages ≠
        max 1 ⌈(((getAllStudents (storeOfSize 2) 1 2147483647).totalRecords : Int) : ℚ) /
          ((2147483647 : Int) : ℚ)⌉ := by
  have h1 : (getAllStudents (storeOfSize 2) 1 2147483647).totalPages = -1 := by decide
  refine ⟨by decide, by decide, by decide, h1, by decide, by decide, ?_⟩
  intro h
  have h2 := le_max_left (1 : Int)
    ⌈(((getAllStudents (storeOfSize 2) 1 2147483647).totalRecords : Int) : ℚ) /
      ((2147483647 : Int) : ℚ)⌉
  rw [← h, h1] at h2
  exact absurd h2 (by decide)

/-- C10 (amended): for every data file, every `pageSize >= 1` with
`active + pageSize` within `int` (so that `totalRecords + pageSize - 1` does
not overflow) and every `pageNumber`, `getAllStudents` reports `totalRecords` =
the number of active records and `searchBy` reports `totalRecords` = the
number of active records matching the query, each with
`totalPages = max(1, ceil(totalRecords / pageSize))`; the two values do not
depend on `pageNumber`; and a file without active records gives
`totalRecords = 0`, `totalPages = 1` and no records. -/
theorem page_totals (db : Store) (query : List Nat) (byName : Bool)
    (pageNumber pageSize : Int) (hps : 1 ≤ pageSize)
    (hsum : ((activeRecords db.dataFile).length : Int) + pageSize ≤ 2147483647) :
    (getAllStudents db pageNumber pageSize).totalRecords =
        ((activeRecords db.dataFile).length : Int) ∧
      (getAllStudents db pageNumber pageSize).totalPages =
        max 1 ⌈(((activeRecords db.dataFile).length : Int) : ℚ) / (pageSize : ℚ)⌉ ∧
      (searchBy db query byName pageNumber pageSize).totalRecords =
        ((matchingRecords db.dataFile query byName).length : Int) ∧
      (searchBy db query byName pageNumber pageSize).totalPages =
        max 1 ⌈(((matchingRecords db.dataFile query byName).length : Int) : ℚ) /
          (pageSize : ℚ)⌉ ∧
      (∀ other : Int,
        (getAllStudents db other pageSize).totalRecords =
            (getAllStudents db pageNumber pageSize).totalRecords ∧
          (getAllStudents db other pageSize).totalPages =
            (getAllStudents db pageNumber pageSize).totalPages ∧
          (searchBy db query byName other pageSize).totalRecords =
            (searchBy db query byName pageNumber pageSize).totalRecords ∧
          (searchBy db query byName other pageSize).totalPages =
            (searchBy db query byName pageNumber pageSize).totalPages) ∧
      (activeRecords db.dataFile = [] →
        (getAllStudents db pageNumber pageSize).totalRecords = 0 ∧
          (getAllStudents db pageNumber pageSize).totalPages = 1 ∧
          (getAllStudents db pageNumber pageSize).students = [] ∧
          (searchBy db query byName pageNumber pageSize).totalRecords = 0 ∧
          (searchBy db query byName pageNumber pageSize).totalPages = 1 ∧
          (searchBy db query byName pageNumber pageSize).students = []) := by
  have hm := length_matchingRecords_le db.dataFile query byName
  have hA : ∀ pn : Int, getAllStudents db pn pageSize = _ :=
    fun pn => getAllStudents_eq db pn pageSize (by omega) (by omega) (by omega)
  have hS : ∀ pn : Int, searchBy db query byName pn pageSize = _ :=
    fun pn => searchBy_eq db query byName pn pageSize (by omega) (by omega) (by omega)
  have cA := pageCount_eq ((activeRecords db.dataFile).length : Int) pageSize (by omega) hps hsum
  have cS := pageCount_eq ((matchingRecords db.dataFile query byName).length : Int) pageSize
    (by omega) hps (by omega)
  rw [← ceil_div_eq _ _ hps] at cA cS
  refine ⟨by rw [hA], by rw [hA]; exact cA, by rw [hS], by rw [hS]; exact cS, ?_, ?_⟩
  · intro other
    refine ⟨by rw [hA, hA], by rw [hA, hA], by rw [hS, hS], by rw [hS, hS]⟩
  · intro hnil
    have hnil2 : matchingRecords db.dataFile query byName = [] := by
      apply List.eq_nil_of_length_eq_zero
      rw [hnil] at hm
      simpa using hm
    rw [hA, hS]
    dsimp only
    rw [cA, cS, hnil, hnil2]
    simp

set_option maxRecDepth 100000 in
theorem page_totals_witness :
    (1 : Int) ≤ 2 ∧
      ((activeRecords (storeOfSize 5).dataFile).length : Int) + 2 ≤ 2147483647 ∧
      (getAllStudents (storeOfSize 5) 4 2).totalRecords =
        ((activeRecords (storeOfSize 5).dataFile).length : Int) ∧
      (getAllStudents (storeOfSize 5) 4 2).totalPages =
        max 1 ⌈(((activeRecords (storeOfSize 5).dataFile).length : Int) : ℚ) /
          ((2 : Int) : ℚ)⌉ :=
  ⟨by decide, by decide,
    (page_totals (storeOfSize 5) [] true 4 2 (by decide) (by decide)).1,
    (page_totals (storeOfSize 5) [] true 4 2 (by decide) (by decide)).2.1⟩

/-! ## Blocks of the data file -/

theorem slot_eq_of_readAt (data : List Nat) (i : Nat) (b : List Nat)
    (h : readAt data ((i * sizeofStudent : Nat) : Int) = some b) : slot data i = b := by
  obtain ⟨_, _, e⟩ := (readAt_eq_some _ _ _).1 h
  rw [e, Int.toNat_ofNat]
  rfl

theorem slot_append_left (data bytes : List Nat) (i : Nat)
    (h : i < data.length / sizeofStudent) : slot (data ++ bytes) i = slot data i :=
  slot_eq_of_readAt _ _ _ (readAt_append_left _ _ _ _ (readAt_slot data i h))

theorem slot_append_end (data bytes : List Nat) (hb : bytes.length = sizeofStudent)
    (hd : data.length % sizeofStudent = 0) :
    slot (data ++ bytes) (data.length / sizeofStudent) = bytes := by
  apply slot_eq_of_readAt
  have e : data.length / sizeofStudent * sizeofStudent = data.length :=
    Nat.div_mul_cancel (Nat.dvd_of_mod_eq_zero hd)
  rw [e]
  exact readAt_append_end data bytes hb

theorem slot_writeAt_same (data bytes : List Nat) (j : Nat) (hb : bytes.length = sizeofStudent)
    (h : j * sizeofStudent + sizeofStudent ≤ data.length) :
    slot (writeAt data ((j * sizeofStudent : Nat) : Int) bytes) j = bytes :=
  slot_eq_of_readAt _ _ _
    (readAt_writeAt_same _ _ _ (by omega) hb (by rw [Int.toNat_ofNat]; exact h))

theorem slot_writeAt_other (data bytes : List Nat) (i j : Nat)
    (hb : bytes.length = sizeofStudent) (h : j * sizeofStudent + sizeofStudent ≤ data.length)
    (hi : i < data.length / sizeofStudent) (hij : i ≠ j) :
    slot (writeAt data ((j * sizeofStudent : Nat) : Int) bytes) i = slot data i := by
  apply slot_eq_of_readAt
  rw [readAt_writeAt_other _ _ _ _ (by omega) hb (by rw [Int.toNat_ofNat]; exact h)]
  · exact readAt_slot data i hi
  · unfold sizeofStudent
    push_cast
    omega

theorem mem_records (data : List Nat) (s : Student) (h : s ∈ records data) :
    ∃ i, i < data.length / sizeofStudent ∧ s = decode (slot data i) := by
  unfold records at h
  rw [List.mem_map] at h
  obtain ⟨i, hi, e⟩ := h
  exact ⟨i, List.mem_range.1 hi, e.symm⟩

/-! ## Accounting is kept by every operation -/

theorem accounted_fresh : Accounted Store.fresh := by
  refine ⟨rfl, ?_, ?_⟩
  · intro k pos h
    cases h
  · intro i hi
    exact absurd hi (Nat.not_lt_zero i)

theorem accounted_add (db : Store) (r : Student) (hr : r.WF) (h : Accounted db) :
    Accounted (addStudent db r).2 := by
  obtain ⟨ha, hb, hc⟩ := h
  by_cases hcnt : db.id_index.count r.id = 0
  · rw [addStudent_of_absent db r hcnt]
    have hno := (Index.count_eq_zero _ _).1 hcnt
    have hlen := length_encode r
    have hdiv : (db.dataFile ++ encode r).length / sizeofStudent =
        db.dataFile.length / sizeofStudent + 1 := by
      rw [List.length_append, hlen]
      unfold sizeofStudent at *
      omega
    have hmul : db.dataFile.length / sizeofStudent * sizeofStudent = db.dataFile.length :=
      Nat.div_mul_cancel (Nat.dvd_of_mod_eq_zero ha)
    refine ⟨?_, ?_, ?_⟩ <;> dsimp only
    · rw [List.length_append, hlen]
      unfold sizeofStudent at *
      omega
    · intro k pos hk
      by_cases e : k = r.id
      · subst e
        rw [Index.at_assign_same] at hk
        cases hk
        exact ⟨db.dataFile.length / sizeofStudent, by rw [hmul]⟩
      · rw [Index.at_assign_other _ _ _ _ e] at hk
        exact hb k pos hk
    · intro i hi hact
      rw [hdiv] at hi
      by_cases hlt : i < db.dataFile.length / sizeofStudent
      · rw [slot_append_left _ _ _ hlt] at hact ⊢
        have hold := hc i hlt hact
        have hne : (decode (slot db.dataFile i)).id ≠ r.id := by
          intro e
          rw [e, hno] at hold
          cases hold
        rw [Index.at_assign_other _ _ _ _ hne]
        exact hold
      · have hi2 : i = db.dataFile.length / sizeofStudent := by omega
        subst hi2
        rw [slot_append_end _ _ hlen ha, decode_encode_id r hr.1, Index.at_assign_same, hmul]
  · have e : addStudent db r = (false, db) := by
      unfold addStudent
      simp [hcnt]
    rw [e]
    exact ⟨ha, hb, hc⟩

theorem accounted_write (db : Store) (k pos : Int) (s s2 : Student)
    (hf : (findStudentById db k).1 = some s) (hp : db.id_index.at k = some pos)
    (h : Accounted db) :
    ∃ j : Nat, pos = ((j * sizeofStudent : Nat) : Int) ∧
      j * sizeofStudent + sizeofStudent ≤ db.dataFile.length ∧
      j < db.dataFile.length / sizeofStudent ∧
      (writeAt db.dataFile pos (encode s2)).length = db.dataFile.length ∧
      slot (writeAt db.dataFile pos (encode s2)) j = encode s2 ∧
      ∀ i, i < db.dataFile.length / sizeofStudent → i ≠ j →
        slot (writeAt db.dataFile pos (encode s2)) i = slot db.dataFile i := by
  obtain ⟨pos2, hp2, h0, hlen, _⟩ := slot_of_found db k s hf
  rw [hp] at hp2
  cases hp2
  obtain ⟨j, hj⟩ := h.2.1 k pos hp
  subst hj
  rw [Int.toNat_ofNat] at hlen
  have hl := length_encode s2
  have hjlt : j < db.dataFile.length / sizeofStudent := by
    apply (Nat.le_div_iff_mul_le (by decide)).2
    linarith
  exact ⟨j, rfl, hlen, hjlt, length_writeAt _ _ _ (by omega) (by rw [Int.toNat_ofNat]; omega),
    slot_writeAt_same _ _ _ hl hlen,
    fun i hi hij => slot_writeAt_other _ _ _ _ hl hlen hi hij⟩

theorem accounted_update (db : Store) (k : Int) (n a : List Nat) (t : Int) (h : Accounted db) :
    Accounted (updateStudent db k n a t).2 := by
  cases hf : (findStudentById db k).1 with
  | none =>
    rw [updateStudent_of_not_found db k n a t hf]
    exact h
  | some s =>
    obtain ⟨pos, hp, _, _, _, _, hwf, hid, hact⟩ := slot_of_found db k s hf
    obtain ⟨j, hj, _, hjlt, hlen, hsame, hother⟩ :=
      accounted_write db k pos s (applyUpdate s n a t) hf hp h
    obtain ⟨ha, hb, hc⟩ := h
    rw [updateStudent_of_found db k s n a t pos hf hp]
    refine ⟨?_, ?_, ?_⟩ <;> dsimp only
    · rw [hlen]
      exact ha
    · exact hb
    · intro i hi hact2
      rw [hlen] at hi
      by_cases hij : i = j
      · subst hij
        rw [hsame, decode_encode_id _ (by exact hwf.1)]
        show db.id_index.at s.id = _
        rw [hid, hp, hj]
      · rw [hother i hi hij] at hact2 ⊢
        exact hc i hi hact2

theorem accounted_delete (db : Store) (k : Int) (t : Int) (h : Accounted db) :
    Accounted (deleteStudent db k t).2 := by
  cases hf : (findStudentById db k).1 with
  | none =>
    rw [deleteStudent_of_not_found db k t hf]
    exact h
  | some s =>
    obtain ⟨pos, hp, _, _, _, _, hwf, hid, hact⟩ := slot_of_found db k s hf
    obtain ⟨j, hj, _, hjlt, hlen, hsame, hother⟩ :=
      accounted_write db k pos s (markDeleted s t) hf hp h
    obtain ⟨ha, hb, hc⟩ := h
    rw [deleteStudent_of_found db k s t pos hf hp]
    refine ⟨?_, ?_, ?_⟩ <;> dsimp only
    · rw [hlen]
      exact ha
    · intro k2 pos2 hk2
      by_cases e : k2 = k
      · rw [e, Index.at_erase_same] at hk2
        cases hk2
      · rw [Index.at_erase_other _ _ _ e] at hk2
        exact hb k2 pos2 hk2
    · intro i hi hact2
      rw [hlen] at hi
      by_cases hij : i = j
      · subst hij
        rw [hsame, decode_encode_isActive] at hact2
        cases hact2
      · rw [hother i hi hij] at hact2 ⊢
        have hold := hc i hi hact2
        have hne : (decode (slot db.dataFile i)).id ≠ k := by
          intro e
          rw [e, hp, hj] at hold
          have e2 : ((j * sizeofStudent : Nat) : Int) = ((i * sizeofStudent : Nat) : Int) :=
            Option.some.inj hold
          have e3 : j * sizeofStudent = i * sizeofStudent := by exact_mod_cast e2
          exact hij (Nat.eq_of_mul_eq_mul_right (by decide) e3).symm
        rw [Index.at_erase_other _ _ _ hne]
        exact hold

/-- Every reachable state keeps the accounting of active records. -/
theorem accounted_of_reachable (db : Store) (h : Reachable db) : Accounted db := by
  induction h with
  | fresh => exact accounted_fresh
  | add db r _ hr ih => exact accounted_add db r hr ih
  | update db k n a t _ ih => exact accounted_update db k n a t ih
  | delete db k t _ ih => exact accounted_delete db k t ih

/-- With the accounting in place, a key that cannot be found has no active
record anywhere in the file. -/
theorem no_active_of_not_found (db : Store) (k : Int) (h : Accounted db)
    (hf : (findStudentById db k).1 = none) : ∀ s ∈ activeRecords db.dataFile, s.id ≠ k := by
  intro s hs e
  unfold activeRecords at hs
  rw [List.mem_filter] at hs
  obtain ⟨hmem, hact⟩ := hs
  obtain ⟨i, hi, hsi⟩ := mem_records _ _ hmem
  have hact2 : s.isActive = true := hact
  have hidx := h.2.2 i hi (by rw [← hsi]; exact hact2)
  rw [← hsi, e] at hidx
  have hsome : (findStudentById db k).1 = some s := by
    rw [findStudentById_eq_some]
    exact ⟨_, _, hidx, readAt_slot _ i hi, hsi.symm, e, hact2⟩
  rw [hf] at hsome
  cases hsome

theorem find_after_delete (db : Store) (k : Int) (t : Int) :
    (findStudentById (deleteStudent db k t).2 k).1 = none := by
  cases hf : (findStudentById db k).1 with
  | none =>
    rw [deleteStudent_of_not_found db k t hf]
    exact hf
  | some s =>
    obtain ⟨pos, hp, _⟩ := slot_of_found db k s hf
    rw [deleteStudent_of_found db k s t pos hf hp, findStudentById_fst]
    dsimp only
    rw [Index.at_erase_same]

theorem mem_foldl_pageStep (p : Student → Bool) (skip ps : Int) (L : List Student)
    (st : List Student × Int) (x : Student)
    (hx : x ∈ (L.foldl (pageStep p skip ps) st).1) : x ∈ st.1 ∨ (x ∈ L ∧ p x = true) := by
  induction L generalizing st with
  | nil => exact Or.inl hx
  | cons s L ih =>
    rw [List.foldl_cons] at hx
    rcases ih _ hx with h1 | ⟨h2, h3⟩
    · unfold pageStep at h1
      by_cases hp : p s = true
      · rw [if_pos hp] at h1
        dsimp only at h1
        split_ifs at h1
        · rcases List.mem_append.1 h1 with h4 | h4
          · exact Or.inl h4
          · rw [List.mem_singleton] at h4
            subst h4
            exact Or.inr ⟨List.mem_cons_self _ _, hp⟩
        · exact Or.inl h1
      · rw [if_neg hp] at h1
        exact Or.inl h1
    · exact Or.inr ⟨List.mem_cons_of_mem _ h2, h3⟩

/-- Every record on a page of `getAllStudents` is an active record of the
file. -/
theorem mem_getAllStudents (db : Store) (pn ps : Int) (x : Student)
    (hx : x ∈ (getAllStudents db pn ps).students) : x ∈ activeRecords db.dataFile := by
  unfold getAllStudents at hx
  simp only [readLoop_eq_foldl, listBody_eq] at hx
  rcases mem_foldl_pageStep _ _ _ _ _ _ hx with h | ⟨h1, h2⟩
  · cases h
  · exact List.mem_filter.2 ⟨h1, h2⟩

/-- Every record on a page of `searchBy` is an active record of the file
matching the query. -/
theorem mem_searchBy (db : Store) (query : List Nat) (byName : Bool) (pn ps : Int) (x : Student)
    (hx : x ∈ (searchBy db query byName pn ps).students) :
    x ∈ matchingRecords db.dataFile query byName ∧ x ∈ activeRecords db.dataFile := by
  unfold searchBy at hx
  simp only [readLoop_eq_foldl, searchBody_eq] at hx
  rcases mem_foldl_pageStep _ _ _ _ _ _ hx with h | ⟨h1, h2⟩
  · cases h
  · refine ⟨List.mem_filter.2 ⟨h1, h2⟩, List.mem_filter.2 ⟨h1, ?_⟩⟩
    simp only [Bool.and_eq_true] at h2
    exact h2.1

/-! ## Soft delete hides the record -/

/-- C3: in every state reachable from a fresh store and for every key `k` of
its index, after `deleteStudent k` the lookup of `k` returns nothing, and for
every page number, page size `>= 1`, query and field selector no record with
id `k` is on the page returned by `getAllStudents` or by `searchBy`. -/
theorem deleted_key_hidden (db : Store) (hreach : Reachable db) (k : Int)
    (_hk : db.id_index.count k ≠ 0) (t : Int) :
    (findStudentById (deleteStudent db k t).2 k).1 = none ∧
      ∀ (pageNumber pageSize : Int) (query : List Nat) (byName : Bool), 1 ≤ pageSize →
        (∀ s ∈ (getAllStudents (deleteStudent db k t).2 pageNumber pageSize).students,
          s.id ≠ k) ∧
        (∀ s ∈ (searchBy (deleteStudent db k t).2 query byName pageNumber pageSize).students,
          s.id ≠ k) := by
  have hacc := accounted_of_reachable _ (Reachable.delete db k t hreach)
  have hnone := find_after_delete db k t
  have hno := no_active_of_not_found _ k hacc hnone
  refine ⟨hnone, ?_⟩
  intro pageNumber pageSize query byName _
  exact ⟨fun s hs => hno s (mem_getAllStudents _ _ _ s hs),
    fun s hs => hno s (mem_searchBy _ _ _ _ _ s hs).2⟩

set_option maxRecDepth 100000 in
theorem deleted_key_hidden_witness :
    Reachable sampleStore ∧ sampleStore.id_index.count 7 ≠ 0 ∧
      (findStudentById (deleteStudent sampleStore 7 2000).2 7).1 = none ∧
      (∀ s ∈ (getAllStudents (deleteStudent sampleStore 7 2000).2 1 5).students, s.id ≠ 7) :=
  ⟨Reachable.add Store.fresh sampleStudent Reachable.fresh (by decide), by decide,
    (deleted_key_hidden sampleStore
      (Reachable.add Store.fresh sampleStudent Reachable.fresh (by decide)) 7 (by decide)
      2000).1,
    ((deleted_key_hidden sampleStore
      (Reachable.add Store.fresh sampleStudent Reachable.fresh (by decide)) 7 (by decide)
      2000).2 1 5 [] true (by decide)).1⟩

/-! ## Listing and searching -/

theorem occursIn_nil (text : List Nat) : occursIn [] text = true := by
  unfold occursIn
  cases text <;> simp [List.tails]

theorem searchBody_nil (byName : Bool) (skip ps : Int) :
    searchBody [] byName skip ps = listBody skip ps := by
  funext st s
  unfold searchBody listBody fieldMatches
  rw [occursIn_nil]
  simp

/-- C18: for every data file, page number, page size and either field
selector, `searchBy` with the empty query returns the same `PageResult`
(records, current page, total pages, total records) as `getAllStudents`. -/
theorem searchBy_empty_query (db : Store) (byName : Bool) (pageNumber pageSize : Int) :
    searchBy db [] byName pageNumber pageSize = getAllStudents db pageNumber pageSize ∧
      (searchBy db [] byName pageNumber pageSize).students =
        (getAllStudents db pageNumber pageSize).students ∧
      (searchBy db [] byName pageNumber pageSize).currentPage =
        (getAllStudents db pageNumber pageSize).currentPage ∧
      (searchBy db [] byName pageNumber pageSize).totalPages =
        (getAllStudents db pageNumber pageSize).totalPages ∧
      (searchBy db [] byName pageNumber pageSize).totalRecords =
        (getAllStudents db pageNumber pageSize).totalRecords := by
  have e : searchBy db [] byName pageNumber pageSize = getAllStudents db pageNumber pageSize := by
    unfold searchBy getAllStudents
    simp only [List.map_nil, searchBody_nil]
  rw [e]
  exact ⟨rfl, rfl, rfl, rfl, rfl⟩

/-! ## Truncation of text -/

theorem strncpy_of_no_nul (v : List Nat) (n : Nat) (hv : ∀ b ∈ v, b ≠ 0) :
    strncpy v n = v.take n ++ List.replicate (n - min n v.length) 0 := by
  have e : v.takeWhile (fun b => b != 0) = v := cstr_of_no_nul v hv
  unfold strncpy
  rw [e, List.length_take]

theorem setText_of_no_nul (size : Nat) (v : List Nat) (hs : 0 < size) (hv : ∀ b ∈ v, b ≠ 0) :
    setText size v =
      v.take (size - 1) ++ List.replicate (size - min (size - 1) v.length) 0 := by
  unfold setText
  rw [strncpy_of_no_nul v _ hv, List.append_assoc]
  congr 1
  have e : ([0] : List Nat) = List.replicate 1 0 := rfl
  rw [e, ← List.replicate_add]
  congr 1
  omega

theorem find_after_update (db : Store) (k : Int) (s : Student) (n a : List Nat) (t : Int)
    (hfind : (findStudentById db k).1 = some s) (ht : isTimeT t) :
    (findStudentById (updateStudent db k n a t).2 k).1 = some (applyUpdate s n a t) := by
  obtain ⟨pos, hp, h0, hlen, _, _, hwf, hid, hact⟩ := slot_of_found db k s hfind
  rw [updateStudent_of_found db k s n a t pos hfind hp, findStudentById_eq_some]
  exact ⟨pos, _, hp, readAt_writeAt_same _ _ _ h0 (length_encode _) hlen,
    decode_encode _ (applyUpdate_WF s n a t hwf ht), hid, hact⟩

theorem take_min_length (v : List Nat) (n : Nat) : v.take (min v.length n) = v.take n := by
  by_cases h : v.length ≤ n
  · rw [min_eq_left h, List.take_of_length_le (le_refl _), List.take_of_length_le h]
  · rw [min_eq_right (by omega)]

/-- The contents of a text field of `size` bytes after `strncpy` and the
terminator, for a value without NUL bytes. -/
theorem setText_eq (size : Nat) (v : List Nat) (hs : 0 < size) (hv : ∀ b ∈ v, b ≠ 0) :
    setText size v =
      v.take (min v.length (size - 1)) ++
        List.replicate (size - min v.length (size - 1)) 0 := by
  rw [setText_of_no_nul size v hs hv, take_min_length, min_comm]

/-- C13: for every text value `v` without NUL bytes, the constructor
`Student(id, name, address)` and `updateStudent` store in the name (address)
field exactly the first `min(|v|, 49)` (`min(|v|, 99)`) bytes of `v` followed
by NUL bytes up to 50 (100) bytes: a longer value is cut, a shorter one is kept
whole and NUL-padded, and the field after an update is this value whatever the
field held before. -/
theorem text_field_contents (v : List Nat) (hv : ∀ b ∈ v, b ≠ 0) :
    (∀ (id : Int) (other : List Nat) (t1 t2 : Int),
      (Student.new id v other t1 t2).name =
          v.take (min v.length 49) ++ List.replicate (50 - min v.length 49) 0 ∧
        (Student.new id other v t1 t2).address =
          v.take (min v.length 99) ++ List.replicate (100 - min v.length 99) 0) ∧
      (∀ (db : Store) (k : Int) (s : Student) (other : List Nat) (t : Int),
        (findStudentById db k).1 = some s → isTimeT t →
        ((findStudentById (updateStudent db k v other t).2 k).1.map (fun r => r.name) =
            some (v.take (min v.length 49) ++ List.replicate (50 - min v.length 49) 0) ∧
          (findStudentById (updateStudent db k other v t).2 k).1.map (fun r => r.address) =
            some (v.take (min v.length 99) ++ List.replicate (100 - min v.length 99) 0))) ∧
      (v.length ≤ 49 → setText NAME_SIZE v = v ++ List.replicate (50 - v.length) 0) ∧
      (49 < v.length → setText NAME_SIZE v = v.take 49 ++ [0]) ∧
      (v.length ≤ 99 → setText ADDR_SIZE v = v ++ List.replicate (100 - v.length) 0) ∧
      (99 < v.length → setText ADDR_SIZE v = v.take 99 ++ [0]) := by
  have hN := setText_eq NAME_SIZE v (by decide) hv
  have hA := setText_eq ADDR_SIZE v (by decide) hv
  have hN2 : NAME_SIZE - 1 = 49 := rfl
  have hA2 : ADDR_SIZE - 1 = 99 := rfl
  have hN3 : NAME_SIZE = 50 := rfl
  have hA3 : ADDR_SIZE = 100 := rfl
  rw [hN2, hN3] at hN
  rw [hA2, hA3] at hA
  refine ⟨?_, ?_, ?_, ?_, ?_, ?_⟩
  · intro id other t1 t2
    exact ⟨hN, hA⟩
  · intro db k s other t hf ht
    rw [find_after_update db k s v other t hf ht, find_after_update db k s other v t hf ht]
    exact ⟨congrArg some hN, congrArg some hA⟩
  · intro h
    rw [hN3, hN, min_eq_left h, List.take_of_length_le (le_refl _)]
  · intro h
    rw [hN3, hN, min_eq_right (by omega)]
    rfl
  · intro h
    rw [hA3, hA, min_eq_left h, List.take_of_length_le (le_refl _)]
  · intro h
    rw [hA3, hA, min_eq_right (by omega)]
    rfl

set_option maxRecDepth 100000 in
theorem text_field_contents_witness :
    (∀ b ∈ [66, 111], b ≠ 0) ∧
      (Student.new 7 [66, 111] [82, 100] 1000 1000).name =
        [66, 111].take (min [66, 111].length 49) ++
          List.replicate (50 - min [66, 111].length 49) 0 ∧
      (findStudentById (updateStudent sampleStore 7 [66, 111] [67] 2000).2 7).1.map
        (fun r => r.name) =
        some ([66, 111].take (min [66, 111].length 49) ++
          List.replicate (50 - min [66, 111].length 49) 0) :=
  ⟨by decide, ((text_field_contents [66, 111] (by decide)).1 7 [82, 100] 1000 1000).1,
    ((text_field_contents [66, 111] (by decide)).2.1 sampleStore 7 sampleStudent [67] 2000
      (by decide) (by decide)).1⟩

/-! ## Pages, whatever the counter does -/

theorem wrapInt_succ (x : Int) : wrapInt (wrapInt x + 1) = wrapInt (x + 1) := by
  unfold wrapInt
  omega

theorem pageStep_pos (p : Student → Bool) (skip ps : Int) (st : List Student × Int)
    (s : Student) (h : p s = true) :
    pageStep p skip ps st s =
      (if st.2 ≥ skip ∧ (st.1.length : Int) < toSizeT ps then st.1 ++ [s] else st.1,
        wrapInt (st.2 + 1)) := by
  unfold pageStep
  rw [if_pos h]

theorem pageStep_neg (p : Student → Bool) (skip ps : Int) (st : List Student × Int)
    (s : Student) (h : ¬ p s = true) : pageStep p skip ps st s = st := by
  unfold pageStep
  rw [if_neg h]

/-- The count kept by a loop body of the common shape is the number of records
satisfying `p`, as an `int`, and the page is a sublist of those records. -/
theorem foldl_pageStep_count (p : Student → Bool) (skip ps : Int) (L : List Student) :
    (L.foldl (pageStep p skip ps) ([], 0)).2 = wrapInt ((L.filter p).length : Int) ∧
      (L.foldl (pageStep p skip ps) ([], 0)).1.Sublist (L.filter p) := by
  induction L using List.reverseRecOn with
  | nil =>
    refine ⟨?_, List.Sublist.refl _⟩
    show (0 : Int) = wrapInt 0
    decide
  | append_singleton L s ih =>
    obtain ⟨ih1, ih2⟩ := ih
    rw [List.foldl_append, List.foldl_cons, List.foldl_nil, List.filter_append]
    by_cases hp : p s = true
    · have hf : List.filter p [s] = [s] := by simp [hp]
      rw [pageStep_pos _ _ _ _ _ hp, hf]
      dsimp only
      constructor
      · rw [ih1, wrapInt_succ, List.length_append, List.length_singleton]
        rfl
      · split_ifs
        · exact List.Sublist.append ih2 (List.Sublist.refl _)
        · exact List.sublist_append_of_sublist_left ih2
    · have hf : List.filter p [s] = [] := by simp [hp]
      rw [pageStep_neg _ _ _ _ _ hp, hf, List.append_nil]
      exact ⟨ih1, ih2⟩

/-- With nothing to skip the page is the first `pageSize` records satisfying
`p`, whatever the number of records. -/
theorem foldl_pageStep_nonpos (p : Student → Bool) (skip ps : Int) (hskip : skip ≤ 0)
    (hps0 : 0 ≤ ps) (hps : ps ≤ 2147483647) (L : List Student) :
    (L.foldl (pageStep p skip ps) ([], 0)).1 = (L.filter p).take ps.toNat := by
  induction L using List.reverseRecOn with
  | nil => simp
  | append_singleton L s ih =>
    have hc := (foldl_pageStep_count p skip ps L).1
    rw [List.foldl_append, List.foldl_cons, List.foldl_nil, List.filter_append]
    by_cases hp : p s = true
    · have hf : List.filter p [s] = [s] := by simp [hp]
      have ht : toSizeT ps = ps := by
        unfold toSizeT
        omega
      rw [pageStep_pos _ _ _ _ _ hp, hf, hc, ih, ht]
      dsimp only
      by_cases hlt : (L.filter p).length < ps.toNat
      · have hw : wrapInt ((L.filter p).length : Int) = ((L.filter p).length : Int) :=
          wrapInt_of_isInt _ (by unfold isInt; omega)
        rw [if_pos ⟨by rw [hw]; omega, by rw [List.length_take]; omega⟩,
          List.take_of_length_le (by omega),
          List.take_of_length_le (by rw [List.length_append, List.length_singleton]; omega)]
      · rw [if_neg (by rw [List.length_take]; omega),
          List.take_append_of_le_length (by omega)]
    · have hf : List.filter p [s] = [] := by simp [hp]
      rw [pageStep_neg _ _ _ _ _ hp, hf, List.append_nil]
      exact ih

theorem getAllStudents_fold (db : Store) (pn ps : Int) :
    (getAllStudents db pn ps).students =
        ((records db.dataFile).foldl
          (pageStep (fun s => s.isActive) (wrapInt (wrapInt (pn - 1) * ps)) ps) ([], 0)).1 ∧
      (getAllStudents db pn ps).totalRecords =
        ((records db.dataFile).foldl
          (pageStep (fun s => s.isActive) (wrapInt (wrapInt (pn - 1) * ps)) ps) ([], 0)).2 ∧
      (getAllStudents db pn ps).currentPage = pn := by
  refine ⟨?_, ?_, rfl⟩
  · unfold getAllStudents
    simp only [readLoop_eq_foldl, listBody_eq]
  · unfold getAllStudents
    simp only [readLoop_eq_foldl, listBody_eq]

theorem searchBy_fold (db : Store) (query : List Nat) (byName : Bool) (pn ps : Int) :
    (searchBy db query byName pn ps).students =
        ((records db.dataFile).foldl
          (pageStep (fun s => s.isActive && fieldMatches (query.map toLower) byName s)
            (wrapInt (wrapInt (pn - 1) * ps)) ps) ([], 0)).1 ∧
      (searchBy db query byName pn ps).totalRecords =
        ((records db.dataFile).foldl
          (pageStep (fun s => s.isActive && fieldMatches (query.map toLower) byName s)
            (wrapInt (wrapInt (pn - 1) * ps)) ps) ([], 0)).2 ∧
      (searchBy db query byName pn ps).currentPage = pn := by
  refine ⟨?_, ?_, rfl⟩
  · unfold searchBy
    simp only [readLoop_eq_foldl, searchBody_eq]
  · unfold searchBy
    simp only [readLoop_eq_foldl, searchBody_eq]

theorem skip_nonpos (pn ps : Int) (hps : 1 ≤ ps) (hpn : pn ≤ 0)
    (hno : -2147483648 ≤ (pn - 1) * ps) : wrapInt (wrapInt (pn - 1) * ps) ≤ 0 := by
  have h1 : (pn - 1) * ps ≤ pn - 1 := by nlinarith
  rw [wrapInt_of_isInt (pn - 1) (by unfold isInt; omega),
    wrapInt_of_isInt _ (by unfold isInt; omega)]
  omega

theorem skip_first (ps : Int) : wrapInt (wrapInt (1 - 1) * ps) ≤ 0 := by
  have h : wrapInt (1 - 1) = 0 := by decide
  rw [h, zero_mul]
  decide

/-- C20: for every data file, `pageSize >= 1` and `pageNumber <= 0` for which
`(pageNumber - 1) * pageSize` does not overflow `int`, `getAllStudents` and
`searchBy` return the same records as for page number 1, namely the first
`pageSize` active (matching) records, and report the given page number as
`currentPage`. -/
theorem page_number_below_one (db : Store) (query : List Nat) (byName : Bool)
    (pageNumber pageSize : Int) (hps : 1 ≤ pageSize) (hpsInt : isInt pageSize)
    (hpn : pageNumber ≤ 0) (hno : -2147483648 ≤ (pageNumber - 1) * pageSize) :
    (getAllStudents db pageNumber pageSize).students =
        (getAllStudents db 1 pageSize).students ∧
      (getAllStudents db pageNumber pageSize).students =
        (activeRecords db.dataFile).take pageSize.toNat ∧
      (getAllStudents db pageNumber pageSize).currentPage = pageNumber ∧
      (searchBy db query byName pageNumber pageSize).students =
        (searchBy db query byName 1 pageSize).students ∧
      (searchBy db query byName pageNumber pageSize).students =
        (matchingRecords db.dataFile query byName).take pageSize.toNat ∧
      (searchBy db query byName pageNumber pageSize).currentPage = pageNumber := by
  unfold isInt at hpsInt
  have hs := skip_nonpos pageNumber pageSize hps hpn hno
  have h1 := skip_first pageSize
  have gA := getAllStudents_fold db pageNumber pageSize
  have gB := getAllStudents_fold db 1 pageSize
  have sA := searchBy_fold db query byName pageNumber pageSize
  have sB := searchBy_fold db query byName 1 pageSize
  have eA := foldl_pageStep_nonpos (fun s => s.isActive) _ pageSize hs (by omega) hpsInt.2
    (records db.dataFile)
  have eB := foldl_pageStep_nonpos (fun s => s.isActive) _ pageSize h1 (by omega) hpsInt.2
    (records db.dataFile)
  have fA := foldl_pageStep_nonpos
    (fun s => s.isActive && fieldMatches (query.map toLower) byName s) _ pageSize hs (by omega)
    hpsInt.2 (records db.dataFile)
  have fB := foldl_pageStep_nonpos
    (fun s => s.isActive && fieldMatches (query.map toLower) byName s) _ pageSize h1 (by omega)
    hpsInt.2 (records db.dataFile)
  refine ⟨?_, ?_, gA.2.2, ?_, ?_, sA.2.2⟩
  · rw [gA.1, gB.1, eA, eB]
  · rw [gA.1, eA]
    rfl
  · rw [sA.1, sB.1, fA, fB]
  · rw [sA.1, fA]
    rfl

set_option maxRecDepth 100000 in
theorem page_number_below_one_witness :
    (1 : Int) ≤ 2 ∧ isInt 2 ∧ (-3 : Int) ≤ 0 ∧ (-2147483648 : Int) ≤ (-3 - 1) * 2 ∧
      (getAllStudents (storeOfSize 5) (-3) 2).students =
        (getAllStudents (storeOfSize 5) 1 2).students ∧
      (getAllStudents (storeOfSize 5) (-3) 2).currentPage = -3 :=
  ⟨by decide, by decide, by decide, by decide,
    (page_number_below_one (storeOfSize 5) [] true (-3) 2 (by decide) (by decide) (by decide)
      (by decide)).1,
    (page_number_below_one (storeOfSize 5) [] true (-3) 2 (by decide) (by decide) (by decide)
      (by decide)).2.2.1⟩

/-! ## The search predicate -/

theorem occursIn_iff (q text : List Nat) :
    occursIn q text = true ↔ ∃ pre post, text = pre ++ q ++ post := by
  unfold occursIn
  rw [List.any_eq_true]
  constructor
  · rintro ⟨u, hu, hq⟩
    rw [List.mem_tails] at hu
    rw [List.isPrefixOf_iff_prefix] at hq
    obtain ⟨pre, rfl⟩ := hu
    obtain ⟨post, rfl⟩ := hq
    exact ⟨pre, post, by rw [List.append_assoc]⟩
  · rintro ⟨pre, post, rfl⟩
    refine ⟨q ++ post, ?_, ?_⟩
    · rw [List.mem_tails]
      exact ⟨pre, by rw [List.append_assoc]⟩
    · rw [List.isPrefixOf_iff_prefix]
      exact ⟨post, rfl⟩

theorem mem_matchingRecords (data query : List Nat) (byName : Bool) (s : Student) :
    s ∈ matchingRecords data query byName ↔
      s ∈ records data ∧ s.isActive = true ∧
        ∃ pre post, (cstr (if byName then s.name else s.address)).map toLower =
          pre ++ query.map toLower ++ post := by
  unfold matchingRecords fieldMatches
  rw [List.mem_filter, Bool.and_eq_true, occursIn_iff]

/-- C11: for every data file, query, field selector, `pageSize >= 1` and
`pageNumber >= 1`, the records `searchBy` counts and pages are exactly the
active records in whose selected field (and only that field), read as a C
string and lower-cased, the lower-cased query occurs as a contiguous block:
`totalRecords` is their number (as an `int`), the page is a sublist of them in
file order, namely positions `(pageNumber-1)*pageSize` up to `pageSize` more
where the `int` arithmetic does not overflow; a record named "Alice Smith" is
matched by the name queries "smith" and "ALICE". -/
theorem searchBy_matches (db : Store) (query : List Nat) (byName : Bool)
    (pageNumber pageSize : Int) (hps : 1 ≤ pageSize) (hpsInt : isInt pageSize)
    (hpn : 1 ≤ pageNumber) :
    (∀ s, s ∈ matchingRecords db.dataFile query byName ↔
        s ∈ records db.dataFile ∧ s.isActive = true ∧
          ∃ pre post, (cstr (if byName then s.name else s.address)).map toLower =
            pre ++ query.map toLower ++ post) ∧
      (∀ s r : Student, (if byName then s.name else s.address) =
          (if byName then r.name else r.address) →
        fieldMatches (query.map toLower) byName s =
          fieldMatches (query.map toLower) byName r) ∧
      (searchBy db query byName pageNumber pageSize).totalRecords =
        wrapInt ((matchingRecords db.dataFile query byName).length : Int) ∧
      (((matchingRecords db.dataFile query byName).length : Int) ≤ 2147483647 →
        (searchBy db query byName pageNumber pageSize).totalRecords =
          ((matchingRecords db.dataFile query byName).length : Int)) ∧
      (searchBy db query byName pageNumber pageSize).students.Sublist
        (matchingRecords db.dataFile query byName) ∧
      (((matchingRecords db.dataFile query byName).length : Int) ≤ 2147483647 →
        (pageNumber - 1) * pageSize ≤ 2147483647 →
        (searchBy db query byName pageNumber pageSize).students =
          ((matchingRecords db.dataFile query byName).drop
            ((pageNumber - 1) * pageSize).toNat).take pageSize.toNat) ∧
      (∀ s ∈ records db.dataFile, s.isActive = true → cstr s.name = aliceSmith →
        s ∈ matchingRecords db.dataFile [115, 109, 105, 116, 104] true ∧
          s ∈ matchingRecords db.dataFile [65, 76, 73, 67, 69] true) := by
  unfold isInt at hpsInt
  have hf := searchBy_fold db query byName pageNumber pageSize
  have hc := foldl_pageStep_count
    (fun s => s.isActive && fieldMatches (query.map toLower) byName s)
    (wrapInt (wrapInt (pageNumber - 1) * pageSize)) pageSize (records db.dataFile)
  refine ⟨fun s => mem_matchingRecords _ _ _ s, ?_, ?_, ?_, ?_, ?_, ?_⟩
  · intro s r h
    unfold fieldMatches
    rw [h]
  · rw [hf.2.1, hc.1]
    rfl
  · intro hle
    rw [hf.2.1, hc.1]
    exact wrapInt_of_isInt _ ⟨by omega, hle⟩
  · rw [hf.1]
    exact hc.2
  · intro hle hskip
    have h0 : 0 ≤ (pageNumber - 1) * pageSize := mul_nonneg (by omega) (by omega)
    have h1 : pageNumber - 1 ≤ (pageNumber - 1) * pageSize :=
      le_mul_of_one_le_right (by omega) hps
    have hw : wrapInt (wrapInt (pageNumber - 1) * pageSize) = (pageNumber - 1) * pageSize := by
      rw [wrapInt_of_isInt (pageNumber - 1) (by unfold isInt; omega),
        wrapInt_of_isInt _ (by unfold isInt; omega)]
    rw [searchBy_eq db query byName pageNumber pageSize (by omega) (by omega) hle, hw]
  · intro s hs hact htext
    constructor
    · rw [mem_matchingRecords]
      refine ⟨hs, hact, [97, 108, 105, 99, 101, 32], [], ?_⟩
      rw [if_pos rfl, htext]
      decide
    · rw [mem_matchingRecords]
      refine ⟨hs, hact, [], [32, 115, 109, 105, 116, 104], ?_⟩
      rw [if_pos rfl, htext]
      decide

set_option maxRecDepth 100000 in
theorem searchBy_matches_witness :
    (1 : Int) ≤ 5 ∧ isInt 5 ∧ (1 : Int) ≤ 1 ∧
      (searchBy aliceStore [115, 109, 105, 116, 104] true 1 5).students =
        [Student.new 1 aliceSmith [82, 100] 1000 1000] ∧
      (searchBy aliceStore [65, 76, 73, 67, 69] true 1 5).students =
        [Student.new 1 aliceSmith [82, 100] 1000 1000] ∧
      (searchBy aliceStore [115, 109, 105, 116, 104] false 1 5).students = [] ∧
      (searchBy aliceStore [115, 109, 105, 116, 104] true 1 5).students.Sublist
        (matchingRecords aliceStore.dataFile [115, 109, 105, 116, 104] true) :=
  ⟨by decide, by decide, by decide, by decide, by decide, by decide,
    (searchBy_matches aliceStore [115, 109, 105, 116, 104] true 1 5 (by decide) (by decide)
      (by decide)).2.2.2.2.1⟩

/-! ## Index/data consistency -/

theorem reachable_of_active (db : Store) (h : ReachableActive db) : Reachable db := by
  induction h with
  | fresh => exact Reachable.fresh
  | add db r _ hr _ ih => exact Reachable.add db r ih hr
  | update db k n a t _ ih => exact Reachable.update db k n a t ih
  | delete db k t _ ih => exact Reachable.delete db k t ih

theorem lt_blocks_of_inside (data : List Nat) (j : Nat)
    (h : j * sizeofStudent + sizeofStudent ≤ data.length) : j < data.length / sizeofStudent := by
  apply (Nat.le_div_iff_mul_le (by decide)).2
  linarith

/-- The block a successful lookup read, as a slot of the file. -/
theorem found_slot (db : Store) (k pos : Int) (s : Student)
    (hf : (findStudentById db k).1 = some s) (hp : db.id_index.at k = some pos)
    (h : Accounted db) :
    ∃ j : Nat, pos = ((j * sizeofStudent : Nat) : Int) ∧
      j * sizeofStudent + sizeofStudent ≤ db.dataFile.length ∧
      decode (slot db.dataFile j) = s := by
  obtain ⟨pos2, hp2, _, hlen, _, hdec, _⟩ := slot_of_found db k s hf
  rw [hp] at hp2
  cases hp2
  obtain ⟨j, hj⟩ := h.2.1 k pos hp
  subst hj
  rw [Int.toNat_ofNat] at hlen hdec
  exact ⟨j, rfl, hlen, hdec⟩

theorem consistent_fresh : Consistent Store.fresh := by
  intro k pos h
  cases h

theorem consistent_add (db : Store) (r : Student) (hr : r.WF) (hact : r.isActive = true)
    (hA : Accounted db) (h : Consistent db) : Consistent (addStudent db r).2 := by
  by_cases hcnt : db.id_index.count r.id = 0
  · rw [addStudent_of_absent db r hcnt]
    have hlen := length_encode r
    have hmul : db.dataFile.length / sizeofStudent * sizeofStudent = db.dataFile.length :=
      Nat.div_mul_cancel (Nat.dvd_of_mod_eq_zero hA.1)
    intro k pos hk
    dsimp only at hk ⊢
    by_cases e : k = r.id
    · subst e
      rw [Index.at_assign_same] at hk
      cases hk
      refine ⟨db.dataFile.length / sizeofStudent, by rw [hmul], ?_, ?_, ?_⟩
      · rw [hmul, List.length_append, hlen]
      · rw [slot_append_end _ _ hlen hA.1, decode_encode_id r hr.1]
      · rw [slot_append_end _ _ hlen hA.1, decode_encode_isActive, hact]
    · rw [Index.at_assign_other _ _ _ _ e] at hk
      obtain ⟨j, hj, hin, hid, ha⟩ := h k pos hk
      refine ⟨j, hj, ?_, ?_, ?_⟩
      · rw [List.length_append]
        omega
      · rw [slot_append_left _ _ _ (lt_blocks_of_inside _ _ hin)]
        exact hid
      · rw [slot_append_left _ _ _ (lt_blocks_of_inside _ _ hin)]
        exact ha
  · have e : addStudent db r = (false, db) := by
      unfold addStudent
      simp [hcnt]
    rw [e]
    exact h

theorem consistent_update (db : Store) (k : Int) (n a : List Nat) (t : Int)
    (hA : Accounted db) (h : Consistent db) : Consistent (updateStudent db k n a t).2 := by
  cases hf : (findStudentById db k).1 with
  | none =>
    rw [updateStudent_of_not_found db k n a t hf]
    exact h
  | some s =>
    obtain ⟨pos, hp, _, _, _, _, hwf, hid, hact⟩ := slot_of_found db k s hf
    obtain ⟨j, hj, _, _, hlen, hsame, hother⟩ :=
      accounted_write db k pos s (applyUpdate s n a t) hf hp hA
    obtain ⟨j0, hj0, _, hdec⟩ := found_slot db k pos s hf hp hA
    have hjj : j0 = j := by
      rw [hj] at hj0
      have e3 : j * sizeofStudent = j0 * sizeofStudent := by exact_mod_cast hj0
      exact (Nat.eq_of_mul_eq_mul_right (by decide) e3).symm
    subst hjj
    rw [updateStudent_of_found db k s n a t pos hf hp]
    intro k2 pos2 hk2
    dsimp only at hk2 ⊢
    obtain ⟨j2, hj2, hin2, hid2, ha2⟩ := h k2 pos2 hk2
    refine ⟨j2, hj2, by rw [hlen]; exact hin2, ?_, ?_⟩
    · by_cases e : j2 = j0
      · subst e
        rw [hsame, decode_encode_id _ (by exact hwf.1)]
        rw [hdec] at hid2
        exact hid2
      · rw [hother j2 (lt_blocks_of_inside _ _ hin2) e]
        exact hid2
    · by_cases e : j2 = j0
      · subst e
        rw [hsame, decode_encode_isActive]
        exact hact
      · rw [hother j2 (lt_blocks_of_inside _ _ hin2) e]
        exact ha2

theorem consistent_delete (db : Store) (k : Int) (t : Int)
    (hA : Accounted db) (h : Consistent db) : Consistent (deleteStudent db k t).2 := by
  cases hf : (findStudentById db k).1 with
  | none =>
    rw [deleteStudent_of_not_found db k t hf]
    exact h
  | some s =>
    obtain ⟨pos, hp, _, _, _, _, hwf, hid, hact⟩ := slot_of_found db k s hf
    obtain ⟨j, hj, _, _, hlen, hsame, hother⟩ :=
      accounted_write db k pos s (markDeleted s t) hf hp hA
    obtain ⟨j0, hj0, _, hdec⟩ := found_slot db k pos s hf hp hA
    have hjj : j0 = j := by
      rw [hj] at hj0
      have e3 : j * sizeofStudent = j0 * sizeofStudent := by exact_mod_cast hj0
      exact (Nat.eq_of_mul_eq_mul_right (by decide) e3).symm
    subst hjj
    rw [deleteStudent_of_found db k s t pos hf hp]
    intro k2 pos2 hk2
    dsimp only at hk2 ⊢
    have hne : k2 ≠ k := by
      intro e
      rw [e, Index.at_erase_same] at hk2
      cases hk2
    rw [Index.at_erase_other _ _ _ hne] at hk2
    obtain ⟨j2, hj2, hin2, hid2, ha2⟩ := h k2 pos2 hk2
    have hjne : j2 ≠ j0 := by
      intro e
      subst e
      rw [hdec] at hid2
      exact hne (hid2.symm.trans hid)
    refine ⟨j2, hj2, by rw [hlen]; exact hin2, ?_, ?_⟩
    · rw [hother j2 (lt_blocks_of_inside _ _ hin2) hjne]
      exact hid2
    · rw [hother j2 (lt_blocks_of_inside _ _ hin2) hjne]
      exact ha2

theorem consistent_of_reachable (db : Store) (h : ReachableActive db) : Consistent db := by
  induction h with
  | fresh => exact consistent_fresh
  | add db r hreach hr hact ih =>
    exact consistent_add db r hr hact (accounted_of_reachable _ (reachable_of_active _ hreach)) ih
  | update db k n a t hreach ih =>
    exact consistent_update db k n a t
      (accounted_of_reachable _ (reachable_of_active _ hreach)) ih
  | delete db k t hreach ih =>
    exact consistent_delete db k t (accounted_of_reachable _ (reachable_of_active _ hreach)) ih

set_option maxRecDepth 100000 in
/-- C15, as stated, fails after `addStudent(Student())`: the state is reachable
from a fresh store, its index maps the key 0 to offset 0, and the slot at
offset 0 holds an inactive record. -/
theorem index_consistency_counterexample :
    Reachable inactiveStore ∧ inactiveStore.id_index.at 0 = some 0 ∧
      readAt inactiveStore.dataFile 0 = some (encode defaultStudent) ∧
      (decode (encode defaultStudent)).id = 0 ∧
      (decode (encode defaultStudent)).isActive = false ∧
      ¬ (∀ k pos, inactiveStore.id_index.at k = some pos →
          ∃ blk, readAt inactiveStore.dataFile pos = some blk ∧ (decode blk).id = k ∧
            (decode blk).isActive = true) := by
  refine ⟨Reachable.add Store.fresh defaultStudent Reachable.fresh (by decide), by decide,
    by decide, by decide, by decide, ?_⟩
  intro h
  obtain ⟨blk, h1, _, h3⟩ := h 0 0 (by decide)
  have h4 : readAt inactiveStore.dataFile 0 = some (encode defaultStudent) := by decide
  rw [h4] at h1
  cases h1
  revert h3
  decide

/-- C15 (amended): in every state reachable from a fresh store by any sequence
of `addStudent` calls with active records, `updateStudent` calls and
`deleteStudent` calls (successful or failed), every key `k` of the index maps
to an offset that is a multiple of the record size and whose block lies inside
the data file, and the block there holds a record with id `k` and
`isActive = true`. -/
theorem index_consistency (db : Store) (hreach : ReachableActive db) :
    ∀ k pos, db.id_index.at k = some pos →
      0 ≤ pos ∧ pos % (sizeofStudent : Int) = 0 ∧
        pos + (sizeofStudent : Int) ≤ (db.dataFile.length : Int) ∧
        ∃ blk, readAt db.dataFile pos = some blk ∧ (decode blk).id = k ∧
          (decode blk).isActive = true := by
  intro k pos hk
  obtain ⟨j, hj, hin, hid, ha⟩ := consistent_of_reachable db hreach k pos hk
  subst hj
  refine ⟨by omega, ?_, ?_, slot db.dataFile j,
    readAt_slot _ _ (lt_blocks_of_inside _ _ hin), hid, ha⟩
  · unfold sizeofStudent
    push_cast
    omega
  · push_cast
    have h2 : ((j * sizeofStudent + sizeofStudent : Nat) : Int) ≤ (db.dataFile.length : Int) := by
      exact_mod_cast hin
    push_cast at h2
    exact h2

set_option maxRecDepth 100000 in
theorem index_consistency_witness :
    ReachableActive sampleStore ∧ sampleStore.id_index.at 7 = some 0 ∧
      ((0 : Int) ≤ 0 ∧ (0 : Int) % (sizeofStudent : Int) = 0 ∧
        (0 : Int) + (sizeofStudent : Int) ≤ (sampleStore.dataFile.length : Int) ∧
        ∃ blk, readAt sampleStore.dataFile 0 = some blk ∧ (decode blk).id = 7 ∧
          (decode blk).isActive = true) :=
  ⟨ReachableActive.add Store.fresh sampleStudent ReachableActive.fresh (by decide)
      (by decide),
    by decide,
    index_consistency sampleStore
      (ReachableActive.add Store.fresh sampleStudent ReachableActive.fresh (by decide)
        (by decide)) 7 0 (by decide)⟩

/-! ## Counting active records and keys -/

theorem records_append (data bytes : List Nat) (hb : bytes.length = sizeofStudent)
    (hd : data.length % sizeofStudent = 0) :
    records (data ++ bytes) = records data ++ [decode bytes] := by
  have hdiv : (data ++ bytes).length / sizeofStudent = data.length / sizeofStudent + 1 := by
    rw [List.length_append, hb]
    unfold sizeofStudent at *
    omega
  unfold records
  rw [hdiv, List.range_succ, List.map_append, List.map_singleton, slot_append_end _ _ hb hd]
  congr 1
  apply List.map_congr_left
  intro i hi
  rw [slot_append_left _ _ _ (List.mem_range.1 hi)]

theorem length_activeRecords (data : List Nat) :
    (activeRecords data).length =
      List.countP (fun i => (decode (slot data i)).isActive)
        (List.range (data.length / sizeofStudent)) := by
  unfold activeRecords records
  rw [← List.countP_eq_length_filter, List.countP_map]
  rfl

theorem countP_range_flip (q r : Nat → Bool) (n j : Nat) (hj : j < n) (hq : q j = true)
    (hr : r j = false) (hsame : ∀ i, i < n → i ≠ j → r i = q i) :
    List.countP r (List.range n) + 1 = List.countP q (List.range n) := by
  induction n with
  | zero => exact absurd hj (Nat.not_lt_zero j)
  | succ n ih =>
    rw [List.range_succ, List.countP_append, List.countP_append, List.countP_singleton,
      List.countP_singleton]
    by_cases e : j = n
    · subst e
      have hc : List.countP r (List.range j) = List.countP q (List.range j) := by
        apply List.countP_congr
        intro i hi
        rw [hsame i (by have := List.mem_range.1 hi; omega)
          (by have := List.mem_range.1 hi; omega)]
      rw [hc, hq, hr]
      simp
    · have h1 := ih (by omega) (fun i hi hij => hsame i (by omega) hij)
      rw [hsame n (by omega) (fun h => e h.symm)]
      omega

theorem Index.at_eq_none_iff (m : Index) (k : Int) : m.at k = none ↔ k ∉ m.keys := by
  induction m with
  | nil => simp [Index.at, Index.keys]
  | cons e t ih =>
    obtain ⟨a, p⟩ := e
    unfold Index.at
    unfold Index.keys at ih ⊢
    by_cases h : a = k
    · simp [h]
    · rw [if_neg h, ih, List.map_cons, List.mem_cons]
      constructor
      · intro h1 h2
        rcases h2 with h2 | h2
        · exact h h2.symm
        · exact h1 h2
      · intro h1 h2
        exact h1 (Or.inr h2)

theorem Index.assign_of_absent (m : Index) (k v : Int) (h : m.at k = none) :
    m.assign k v = m ++ [(k, v)] := by
  induction m with
  | nil => rfl
  | cons e t ih =>
    obtain ⟨a, p⟩ := e
    unfold Index.at at h
    unfold Index.assign
    by_cases e : a = k
    · rw [if_pos e] at h
      cases h
    · rw [if_neg e] at h
      rw [if_neg e, ih h]
      rfl

theorem Index.erase_of_absent (m : Index) (k : Int) (h : k ∉ m.keys) : m.erase k = m := by
  unfold Index.erase
  rw [List.filter_eq_self]
  intro e he
  have : e.1 ∈ m.keys := List.mem_map_of_mem Prod.fst he
  simp only [bne_iff_ne, ne_eq]
  intro h2
  exact h (h2 ▸ this)

theorem Index.length_erase (m : Index) (k : Int) (hnd : m.keys.Nodup) (hk : k ∈ m.keys) :
    (m.erase k).length + 1 = m.length := by
  induction m with
  | nil => simp [Index.keys] at hk
  | cons e t ih =>
    obtain ⟨a, p⟩ := e
    have hnd2 : a ∉ Index.keys t ∧ (Index.keys t).Nodup := List.nodup_cons.1 hnd
    by_cases h : a = k
    · subst h
      have e1 : Index.erase ((a, p) :: t) a = Index.erase t a := by
        unfold Index.erase
        simp [List.filter_cons]
      rw [e1, Index.erase_of_absent t a hnd2.1]
      rfl
    · have hk2 : k ∈ Index.keys t := by
        have hk3 : k ∈ a :: Index.keys t := hk
        rcases List.mem_cons.1 hk3 with h3 | h3
        · exact absurd h3.symm h
        · exact h3
      have e1 : Index.erase ((a, p) :: t) k = (a, p) :: Index.erase t k := by
        unfold Index.erase
        simp [List.filter_cons, h]
      rw [e1, List.length_cons, List.length_cons, ih hnd2.2 hk2]

theorem Index.nodup_erase (m : Index) (k : Int) (hnd : m.keys.Nodup) :
    (m.erase k).keys.Nodup := by
  unfold Index.erase Index.keys at *
  exact (List.Sublist.map Prod.fst (List.filter_sublist m)).nodup hnd

theorem balance_add (db : Store) (r : Student) (hr : r.WF) (hact : r.isActive = true)
    (hA : Accounted db)
    (h : (activeRecords db.dataFile).length = db.id_index.length ∧ db.id_index.keys.Nodup) :
    (activeRecords (addStudent db r).2.dataFile).length = (addStudent db r).2.id_index.length ∧
      (addStudent db r).2.id_index.keys.Nodup := by
  by_cases hcnt : db.id_index.count r.id = 0
  · rw [addStudent_of_absent db r hcnt]
    have hno := (Index.count_eq_zero _ _).1 hcnt
    dsimp only
    rw [Index.assign_of_absent _ _ _ hno]
    constructor
    · unfold activeRecords
      rw [records_append _ _ (length_encode r) hA.1, List.filter_append, List.length_append,
        List.length_append, decode_encode r hr]
      have hf : List.filter (fun s => s.isActive) [r] = [r] := by simp [hact]
      rw [hf]
      unfold activeRecords at h
      rw [h.1]
      rfl
    · unfold Index.keys
      rw [List.map_append, List.nodup_append]
      refine ⟨h.2, List.nodup_singleton _, ?_⟩
      intro x hx hx2
      rw [List.map_singleton, List.mem_singleton] at hx2
      subst hx2
      exact (Index.at_eq_none_iff _ _).1 hno hx
  · have e : addStudent db r = (false, db) := by
      unfold addStudent
      simp [hcnt]
    rw [e]
    exact h

theorem balance_update (db : Store) (k : Int) (n a : List Nat) (t : Int) (hA : Accounted db)
    (h : (activeRecords db.dataFile).length = db.id_index.length ∧ db.id_index.keys.Nodup) :
    (activeRecords (updateStudent db k n a t).2.dataFile).length =
        (updateStudent db k n a t).2.id_index.length ∧
      (updateStudent db k n a t).2.id_index.keys.Nodup := by
  cases hf : (findStudentById db k).1 with
  | none =>
    rw [updateStudent_of_not_found db k n a t hf]
    exact h
  | some s =>
    obtain ⟨pos, hp, _, _, _, _, hwf, hid, hact⟩ := slot_of_found db k s hf
    obtain ⟨j, hj, _, hjlt, hlen, hsame, hother⟩ :=
      accounted_write db k pos s (applyUpdate s n a t) hf hp hA
    obtain ⟨j0, hj0, _, hdec⟩ := found_slot db k pos s hf hp hA
    have hjj : j0 = j := by
      rw [hj] at hj0
      have e3 : j * sizeofStudent = j0 * sizeofStudent := by exact_mod_cast hj0
      exact (Nat.eq_of_mul_eq_mul_right (by decide) e3).symm
    subst hjj
    rw [updateStudent_of_found db k s n a t pos hf hp]
    dsimp only
    refine ⟨?_, h.2⟩
    rw [← h.1, length_activeRecords, length_activeRecords, hlen]
    apply List.countP_congr
    intro i hi
    by_cases e : i = j0
    · subst e
      rw [hsame, decode_encode_isActive, hdec]
      exact ⟨fun _ => hact, fun _ => hact⟩
    · rw [hother i (List.mem_range.1 hi) e]

theorem balance_delete (db : Store) (k : Int) (t : Int) (hA : Accounted db)
    (h : (activeRecords db.dataFile).length = db.id_index.length ∧ db.id_index.keys.Nodup) :
    (activeRecords (deleteStudent db k t).2.dataFile).length =
        (deleteStudent db k t).2.id_index.length ∧
      (deleteStudent db k t).2.id_index.keys.Nodup := by
  cases hf : (findStudentById db k).1 with
  | none =>
    rw [deleteStudent_of_not_found db k t hf]
    exact h
  | some s =>
    obtain ⟨pos, hp, _, _, _, _, hwf, hid, hact⟩ := slot_of_found db k s hf
    obtain ⟨j, hj, _, hjlt, hlen, hsame, hother⟩ :=
      accounted_write db k pos s (markDeleted s t) hf hp hA
    obtain ⟨j0, hj0, _, hdec⟩ := found_slot db k pos s hf hp hA
    have hjj : j0 = j := by
      rw [hj] at hj0
      have e3 : j * sizeofStudent = j0 * sizeofStudent := by exact_mod_cast hj0
      exact (Nat.eq_of_mul_eq_mul_right (by decide) e3).symm
    subst hjj
    rw [deleteStudent_of_found db k s t pos hf hp]
    dsimp only
    refine ⟨?_, Index.nodup_erase _ _ h.2⟩
    have hk : k ∈ db.id_index.keys := by
      by_contra hno
      rw [(Index.at_eq_none_iff _ _).2 hno] at hp
      cases hp
    have h1 := Index.length_erase db.id_index k h.2 hk
    have h2 := countP_range_flip
      (fun i => (decode (slot db.dataFile i)).isActive)
      (fun i => (decode (slot (writeAt db.dataFile pos (encode (markDeleted s t))) i)).isActive)
      (db.dataFile.length / sizeofStudent) j0 hjlt (by dsimp only; rw [hdec]; exact hact)
      (by dsimp only; rw [hsame, decode_encode_isActive]; rfl)
      (fun i hi hij => by dsimp only; rw [hother i hi hij])
    rw [length_activeRecords, hlen]
    rw [length_activeRecords] at h
    omega

/-- With active records only, the active records are as many as the index
entries, and no key occurs twice in the index. -/
theorem balance_of_reachable (db : Store) (h : ReachableActive db) :
    (activeRecords db.dataFile).length = db.id_index.length ∧ db.id_index.keys.Nodup := by
  induction h with
  | fresh => exact ⟨rfl, List.nodup_nil⟩
  | add db r hreach hr hact ih =>
    exact balance_add db r hr hact (accounted_of_reachable _ (reachable_of_active _ hreach)) ih
  | update db k n a t hreach ih =>
    exact balance_update db k n a t (accounted_of_reachable _ (reachable_of_active _ hreach)) ih
  | delete db k t hreach ih =>
    exact balance_delete db k t (accounted_of_reachable _ (reachable_of_active _ hreach)) ih

set_option maxRecDepth 100000 in
/-- C17, as stated, fails after `addStudent(Student())`: the state is reachable
from a fresh store, its index has one key, and `getAllStudents` reports
`totalRecords = 0`. -/
theorem active_accounting_counterexample :
    Reachable inactiveStore ∧ inactiveStore.id_index.keys = [0] ∧
      (getAllStudents inactiveStore 1 5).totalRecords = 0 ∧
      (getAllStudents inactiveStore 1 5).totalRecords ≠
        (inactiveStore.id_index.keys.length : Int) := by
  exact ⟨Reachable.add Store.fresh defaultStudent Reachable.fresh (by decide), by decide,
    by decide, by decide⟩

/-- C17 (amended): in every state reachable from a fresh store by
`addStudent`, `updateStudent` and `deleteStudent`, every slot of the data file
holding an active record with id `k` is the slot the index maps `k` to, hence
no two active records share an id; and when the records passed to `addStudent`
were active, `getAllStudents` reports `totalRecords` equal to the number of
keys in the index (as an `int`: equal to it whenever it fits). -/
theorem active_accounting (db : Store) (hreach : Reachable db) :
    (∀ i, i < db.dataFile.length / sizeofStudent →
        (decode (slot db.dataFile i)).isActive = true →
        db.id_index.at (decode (slot db.dataFile i)).id =
          some ((i * sizeofStudent : Nat) : Int)) ∧
      (∀ i j, i < db.dataFile.length / sizeofStudent →
        j < db.dataFile.length / sizeofStudent →
        (decode (slot db.dataFile i)).isActive = true →
        (decode (slot db.dataFile j)).isActive = true →
        (decode (slot db.dataFile i)).id = (decode (slot db.dataFile j)).id → i = j) ∧
      (ReachableActive db →
        (activeRecords db.dataFile).length = db.id_index.keys.length ∧
        (∀ pn ps : Int, (getAllStudents db pn ps).totalRecords =
          wrapInt (db.id_index.keys.length : Int)) ∧
        ((db.id_index.keys.length : Int) ≤ 2147483647 →
          ∀ pn ps : Int, (getAllStudents db pn ps).totalRecords =
            (db.id_index.keys.length : Int))) := by
  have hA := accounted_of_reachable db hreach
  refine ⟨hA.2.2, ?_, ?_⟩
  · intro i j hi hj hai haj hid
    have h1 := hA.2.2 i hi hai
    have h2 := hA.2.2 j hj haj
    rw [hid, h2] at h1
    have e2 : ((j * sizeofStudent : Nat) : Int) = ((i * sizeofStudent : Nat) : Int) :=
      Option.some.inj h1
    have e3 : j * sizeofStudent = i * sizeofStudent := by exact_mod_cast e2
    exact (Nat.eq_of_mul_eq_mul_right (by decide) e3).symm
  · intro hact
    have hb := (balance_of_reachable db hact).1
    have hk : db.id_index.keys.length = db.id_index.length := by
      unfold Index.keys
      rw [List.length_map]
    have ht : ∀ pn ps : Int, (getAllStudents db pn ps).totalRecords =
        wrapInt (db.id_index.keys.length : Int) := by
      intro pn ps
      rw [(getAllStudents_fold db pn ps).2.1,
        (foldl_pageStep_count (fun s => s.isActive) _ ps (records db.dataFile)).1, hk, ← hb]
      rfl
    refine ⟨by rw [hk]; exact hb, ht, ?_⟩
    intro hle pn ps
    rw [ht pn ps]
    exact wrapInt_of_isInt _ ⟨by omega, hle⟩

set_option maxRecDepth 100000 in
theorem active_accounting_witness :
    Reachable sampleStore ∧ ReachableActive sampleStore ∧
      (getAllStudents sampleStore 1 5).totalRecords =
        wrapInt (sampleStore.id_index.keys.length : Int) :=
  ⟨Reachable.add Store.fresh sampleStudent Reachable.fresh (by decide),
    ReachableActive.add Store.fresh sampleStudent ReachableActive.fresh (by decide)
      (by decide),
    ((active_accounting sampleStore
      (Reachable.add Store.fresh sampleStudent Reachable.fresh (by decide))).2.2
      (ReachableActive.add Store.fresh sampleStudent ReachableActive.fresh (by decide)
        (by decide))).2.1 1 5⟩

/-! ## Adding a deleted key again -/

theorem activeRecords_append (data : List Nat) (r : Student) (hr : r.WF)
    (hact : r.isActive = true) (hd : data.length % sizeofStudent = 0) :
    activeRecords (data ++ encode r) = activeRecords data ++ [r] := by
  unfold activeRecords
  rw [records_append _ _ (length_encode r) hd, List.filter_append, decode_encode r hr]
  congr 1
  simp [hact]

theorem students_sublist (db : Store) (pn ps : Int) :
    (getAllStudents db pn ps).students.Sublist (activeRecords db.dataFile) := by
  rw [(getAllStudents_fold db pn ps).1]
  exact (foldl_pageStep_count (fun s => s.isActive) _ ps (records db.dataFile)).2

set_option maxRecDepth 100000 in
/-- C19, as stated, fails for an inactive record: after deleting key 7 from the
sample store, `addStudent` of `Student()` with id 7 returns true, but
`findStudentById 7` returns nothing and no listing holds a record with id 7. -/
theorem readd_inactive_counterexample :
    Reachable sampleStore ∧ sampleStore.id_index.count 7 ≠ 0 ∧
      (deleteStudent sampleStore 7 2000).1 = true ∧ inactiveSeven.WF ∧ inactiveSeven.id = 7 ∧
      (addStudent (deleteStudent sampleStore 7 2000).2 inactiveSeven).1 = true ∧
      (findStudentById (addStudent (deleteStudent sampleStore 7 2000).2 inactiveSeven).2 7).1 =
        none ∧
      (getAllStudents (addStudent (deleteStudent sampleStore 7 2000).2 inactiveSeven).2 1
        5).students = [] := by
  exact ⟨Reachable.add Store.fresh sampleStudent Reachable.fresh (by decide), by decide,
    by decide, by decide, by decide, by decide, by decide, by decide⟩

/-- C19 (amended): in every state reachable from a fresh store, after
`deleteStudent k` succeeds, `addStudent r` with an active record `r` of id `k`
returns true and grows the data file by exactly one block (the old slot stays
in place, inactive); `findStudentById k` then returns `r`, the active records
of the file hold exactly one record with id `k`, namely `r`, and every page of
`getAllStudents` holds at most one record with id `k`, which is `r`. -/
theorem readd_deleted_key (db : Store) (hreach : Reachable db) (k : Int) (t : Int)
    (r : Student) (hdel : (deleteStudent db k t).1 = true) (hr : r.WF)
    (hact : r.isActive = true) (hid : r.id = k) :
    db.id_index.count k ≠ 0 ∧
      (addStudent (deleteStudent db k t).2 r).1 = true ∧
      (addStudent (deleteStudent db k t).2 r).2.dataFile =
        (deleteStudent db k t).2.dataFile ++ encode r ∧
      (addStudent (deleteStudent db k t).2 r).2.dataFile.length =
        (deleteStudent db k t).2.dataFile.length + sizeofStudent ∧
      (∃ pos blk, db.id_index.at k = some pos ∧
        readAt (addStudent (deleteStudent db k t).2 r).2.dataFile pos = some blk ∧
        (decode blk).id = k ∧ (decode blk).isActive = false) ∧
      (findStudentById (addStudent (deleteStudent db k t).2 r).2 k).1 = some r ∧
      (activeRecords (addStudent (deleteStudent db k t).2 r).2.dataFile).filter
        (fun s => s.id == k) = [r] ∧
      (∀ pn ps : Int,
        (∀ s ∈ (getAllStudents (addStudent (deleteStudent db k t).2 r).2 pn ps).students,
          s.id = k → s = r) ∧
        ((getAllStudents (addStudent (deleteStudent db k t).2 r).2 pn ps).students.filter
          (fun s => s.id == k)).length ≤ 1) := by
  have hA1 := accounted_of_reachable _ (Reachable.delete db k t hreach)
  have hnone := find_after_delete db k t
  have hnoact := no_active_of_not_found _ k hA1 hnone
  cases hf : (findStudentById db k).1 with
  | none =>
    rw [deleteStudent_of_not_found db k t hf] at hdel
    cases hdel
  | some s =>
    obtain ⟨pos, hp, h0, hlen, _, _, hwf, hsid, _⟩ := slot_of_found db k s hf
    have e1 := deleteStudent_of_found db k s t pos hf hp
    have hcnt : (deleteStudent db k t).2.id_index.count r.id = 0 := by
      rw [e1, hid]
      exact (Index.count_eq_zero _ _).2 (Index.at_erase_same _ _)
    have e2 := addStudent_of_absent (deleteStudent db k t).2 r hcnt
    have hfilter : (activeRecords ((deleteStudent db k t).2.dataFile ++ encode r)).filter
        (fun s => s.id == k) = [r] := by
      rw [activeRecords_append _ r hr hact hA1.1, List.filter_append]
      have hn : (activeRecords (deleteStudent db k t).2.dataFile).filter
          (fun s => s.id == k) = [] := by
        rw [List.filter_eq_nil_iff]
        intro a ha
        simpa using hnoact a ha
      have hone : List.filter (fun s => s.id == k) [r] = [r] := by simp [hid]
      rw [hn, hone]
      rfl
    rw [e2]
    dsimp only
    refine ⟨(Index.count_ne_zero _ _).2 ⟨pos, hp⟩, rfl, rfl, ?_, ?_, ?_, hfilter, ?_⟩
    · rw [List.length_append, length_encode]
    · refine ⟨pos, encode (markDeleted s t), hp, ?_, ?_, ?_⟩
      · apply readAt_append_left
        rw [e1]
        exact readAt_writeAt_same _ _ _ h0 (length_encode _) hlen
      · rw [decode_encode_id _ (by exact hwf.1)]
        exact hsid
      · rw [decode_encode_isActive]
        rfl
    · rw [findStudentById_eq_some]
      refine ⟨_, encode r, ?_, readAt_append_end _ _ (length_encode r), decode_encode r hr,
        hid, hact⟩
      dsimp only
      rw [← hid]
      exact Index.at_assign_same _ _ _
    · intro pn ps
      have hsub := students_sublist
        ({ dataFile := (deleteStudent db k t).2.dataFile ++ encode r
           id_index := (deleteStudent db k t).2.id_index.assign r.id
             ((deleteStudent db k t).2.dataFile.length : Int) } : Store) pn ps
      have hsub2 := List.Sublist.filter (fun s => s.id == k) hsub
      dsimp only at hsub2
      rw [hfilter] at hsub2
      constructor
      · intro x hx hxk
        have hx2 : x ∈ List.filter (fun s => s.id == k)
            (getAllStudents
              ({ dataFile := (deleteStudent db k t).2.dataFile ++ encode r
                 id_index := (deleteStudent db k t).2.id_index.assign r.id
                   ((deleteStudent db k t).2.dataFile.length : Int) } : Store) pn
              ps).students := by
          rw [List.mem_filter]
          exact ⟨hx, by simpa using hxk⟩
        exact List.mem_singleton.1 (hsub2.subset hx2)
      · exact hsub2.length_le

set_option maxRecDepth 100000 in
theorem readd_deleted_key_witness :
    Reachable sampleStore ∧ (deleteStudent sampleStore 7 2000).1 = true ∧
      (Student.new 7 [66] [67] 3000 3000).WF ∧
      (findStudentById
        (addStudent (deleteStudent sampleStore 7 2000).2
          (Student.new 7 [66] [67] 3000 3000)).2 7).1 =
        some (Student.new 7 [66] [67] 3000 3000) :=
  ⟨Reachable.add Store.fresh sampleStudent Reachable.fresh (by decide), by decide, by decide,
    (readd_deleted_key sampleStore
      (Reachable.add Store.fresh sampleStudent Reachable.fresh (by decide)) 7 2000
      (Student.new 7 [66] [67] 3000 3000) (by decide) (by decide) (by decide)
      (by decide)).2.2.2.2.2.1⟩

/-! ## The index file -/

theorem length_encodePos (pos : Int) : (encodePos pos).length = sizeofStreampos := by
  unfold encodePos
  rw [List.length_append, length_encodeInt64, List.length_replicate]
  rfl

theorem decodePos_encodePos (pos : Int) (h : isTimeT pos) : decodePos (encodePos pos) = pos := by
  unfold decodePos encodePos
  rw [List.take_left' (length_encodeInt64 pos), decodeInt64_encodeInt64 pos h]

theorem length_saveIndexLoop (l : Index) : l.length ≤ (saveIndexLoop l).length := by
  induction l with
  | nil => exact Nat.le_refl _
  | cons e t ih =>
    obtain ⟨a, p⟩ := e
    unfold saveIndexLoop
    rw [List.length_append, List.length_append, length_encodeInt32, length_encodePos,
      List.length_cons]
    unfold sizeofStreampos
    omega

theorem loadIndexLoop_nil (fuel : Nat) (m : Index) : loadIndexLoop fuel [] m = m := by
  cases fuel with
  | zero => rfl
  | succ n =>
    unfold loadIndexLoop
    rw [if_neg (by decide)]

theorem loadIndexLoop_entry (fuel : Nat) (id pos : Int) (tail : List Nat) (m : Index)
    (hid : isInt id) (hpos : isTimeT pos) :
    loadIndexLoop (fuel + 1) (encodeInt32 id ++ (encodePos pos ++ tail)) m =
      loadIndexLoop fuel tail (m.assign id pos) := by
  have h4 : (encodeInt32 id).length = sizeofInt := length_encodeInt32 id
  have h16 := length_encodePos pos
  rw [loadIndexLoop]
  rw [if_pos (by rw [List.length_append, h4]; omega), List.drop_left' h4,
    if_pos (by rw [List.length_append, h16]; omega), List.drop_left' h16,
    List.take_left' h4, List.take_left' h16, decodeInt32_encodeInt32 id hid,
    decodePos_encodePos pos hpos]

/-- Reading back what `saveIndex` wrote assigns the entries one after the
other, in the order they were written. -/
theorem loadIndexLoop_save (l : Index) (fuel : Nat) (m : Index)
    (ht : ∀ e ∈ l, isInt e.1 ∧ isTimeT e.2) (hf : l.length ≤ fuel) :
    loadIndexLoop fuel (saveIndexLoop l) m = l.foldl (fun acc e => acc.assign e.1 e.2) m := by
  induction l generalizing fuel m with
  | nil => exact loadIndexLoop_nil fuel m
  | cons e t ih =>
    obtain ⟨a, p⟩ := e
    cases fuel with
    | zero => exact absurd hf (by simp)
    | succ n =>
      have h1 := ht (a, p) (List.mem_cons_self _ _)
      unfold saveIndexLoop
      rw [loadIndexLoop_entry n a p _ m h1.1 h1.2, List.foldl_cons]
      exact ih n _ (fun e he => ht e (List.mem_cons_of_mem _ he))
        (by rw [List.length_cons] at hf; omega)

theorem foldl_assign_fresh (l m : Index) (h : (m.keys ++ l.keys).Nodup) :
    l.foldl (fun acc e => acc.assign e.1 e.2) m = m ++ l := by
  induction l generalizing m with
  | nil => simp
  | cons e t ih =>
    obtain ⟨a, p⟩ := e
    have hno : m.at a = none := by
      rw [Index.at_eq_none_iff]
      intro ha
      have hd := (List.nodup_append.1 h).2.2
      exact hd ha (List.mem_cons_self _ _)
    rw [List.foldl_cons]
    dsimp only
    rw [Index.assign_of_absent _ _ _ hno, ih]
    · rw [List.append_assoc]
      rfl
    · have e2 : Index.keys (m ++ [(a, p)]) ++ Index.keys t =
          Index.keys m ++ Index.keys ((a, p) :: t) := by
        unfold Index.keys
        simp
      rw [e2]
      exact h

theorem Index.at_eq_some_iff (m : Index) (k v : Int) (hnd : m.keys.Nodup) :
    m.at k = some v ↔ (k, v) ∈ m := by
  induction m with
  | nil => simp [Index.at]
  | cons e t ih =>
    obtain ⟨a, p⟩ := e
    have hnd2 : a ∉ Index.keys t ∧ (Index.keys t).Nodup := List.nodup_cons.1 hnd
    unfold Index.at
    by_cases h : a = k
    · subst h
      rw [if_pos rfl, List.mem_cons]
      constructor
      · intro e
        cases e
        exact Or.inl rfl
      · intro e
        rcases e with e | e
        · cases e
          rfl
        · exact absurd (List.mem_map_of_mem Prod.fst e) hnd2.1
    · rw [if_neg h, ih hnd2.2, List.mem_cons]
      constructor
      · exact Or.inr
      · intro e
        rcases e with e | e
        · cases e
          exact absurd rfl h
        · exact e

theorem Index.at_eq_of_perm (m order : Index) (hperm : order.Perm m) (hnd : m.keys.Nodup)
    (k : Int) : order.at k = m.at k := by
  have hnd2 : order.keys.Nodup := ((List.Perm.map Prod.fst hperm).nodup_iff).2 hnd
  apply Option.ext
  intro v
  rw [Option.mem_def, Option.mem_def, Index.at_eq_some_iff _ _ _ hnd2,
    Index.at_eq_some_iff _ _ _ hnd]
  exact hperm.mem_iff

theorem loadIndex_saved (order : Index) (hnd : order.keys.Nodup)
    (ht : ∀ e ∈ order, isInt e.1 ∧ isTimeT e.2) :
    loadIndex [] (some (saveIndexLoop order)) = order := by
  unfold loadIndex
  dsimp only
  rw [loadIndexLoop_save order _ [] ht (length_saveIndexLoop order), foldl_assign_fresh]
  · rfl
  · exact hnd

/-- C16: for every index map `m` (no key twice, keys in `int`, positions in
`streampos`) and every order in which `saveIndex` iterates over its entries,
`loadIndex` run on an empty index and the file `saveIndex` wrote yields the
entries written, which is the map `m`: same keys, same position for every key.
On a missing or empty index file `loadIndex` yields the empty index. -/
theorem index_file_round_trip (m order : Index) (old : Option (List Nat))
    (hperm : order.Perm m) (hnd : m.keys.Nodup) (ht : ∀ e ∈ m, isInt e.1 ∧ isTimeT e.2) :
    loadIndex [] (saveIndex order IndexMedium.writable old) = order ∧
      (∀ k, (loadIndex [] (saveIndex order IndexMedium.writable old)).at k = m.at k) ∧
      (loadIndex [] (saveIndex order IndexMedium.writable old)).keys.Perm m.keys ∧
      (loadIndex [] (saveIndex order IndexMedium.writable old)).Perm m ∧
      loadIndex [] none = [] ∧ loadIndex [] (some []) = [] := by
  have hnd2 : order.keys.Nodup := ((List.Perm.map Prod.fst hperm).nodup_iff).2 hnd
  have ht2 : ∀ e ∈ order, isInt e.1 ∧ isTimeT e.2 := fun e he => ht e (hperm.mem_iff.1 he)
  have e : loadIndex [] (saveIndex order IndexMedium.writable old) = order :=
    loadIndex_saved order hnd2 ht2
  rw [e]
  exact ⟨rfl, fun k => Index.at_eq_of_perm m order hperm hnd k, List.Perm.map Prod.fst hperm,
    hperm, rfl, rfl⟩

set_option maxRecDepth 100000 in
theorem index_file_round_trip_witness :
    List.Perm ([(3, 184), (7, 0)] : Index) [(7, 0), (3, 184)] ∧
      (Index.keys [(7, 0), (3, 184)]).Nodup ∧
      (∀ e ∈ ([(7, 0), (3, 184)] : Index), isInt e.1 ∧ isTimeT e.2) ∧
      loadIndex [] (saveIndex [(3, 184), (7, 0)] IndexMedium.writable none) =
        [(3, 184), (7, 0)] ∧
      (∀ k, (loadIndex [] (saveIndex [(3, 184), (7, 0)] IndexMedium.writable none)).at k =
        Index.at [(7, 0), (3, 184)] k) :=
  ⟨List.Perm.swap _ _ _, by decide, by decide,
    (index_file_round_trip [(7, 0), (3, 184)] [(3, 184), (7, 0)] none (List.Perm.swap _ _ _)
      (by decide) (by decide)).1,
    (index_file_round_trip [(7, 0), (3, 184)] [(3, 184), (7, 0)] none (List.Perm.swap _ _ _)
      (by decide) (by decide)).2.1⟩

/-! ## Closing and opening a store -/

theorem openStore_dataFile (disk : Disk) : (openStore disk).1.dataFile = [] := rfl

theorem find_in_empty_file (m : Index) (k : Int) :
    (findStudentById { dataFile := [], id_index := m } k).1 = none := by
  rw [findStudentById_fst]
  dsimp only
  cases m.at k with
  | none => rfl
  | some pos =>
    have h : readAt [] pos = none := by
      rw [readAt_eq_none]
      rintro ⟨_, h2⟩
      exact absurd h2 (by simp [sizeofStudent])
    dsimp only
    rw [h]

set_option maxRecDepth 100000 in
/-- C12: what the code does on the round trip.  Opening a store empties the
data file, because the position of the stream just opened in append mode is 0
and the constructor then opens the file again with `ios::trunc`; so after
close and open every lookup returns nothing, whatever was added before.  For
the sample store the saved index comes back (key 7 at offset 0) and
`findStudentById 7`, which returned the record before the close, returns
nothing. -/
theorem reopen_loses_records :
    (∀ (db : Store) (disk : Disk) (k : Int),
        (openStore (closeStore db disk IndexMedium.writable).2).1.dataFile = [] ∧
          (findStudentById (openStore (closeStore db disk IndexMedium.writable).2).1 k).1 =
            none) ∧
      (openStore { dat := none, idx := none }).1 = Store.fresh ∧
      (findStudentById sampleStore 7).1 = some sampleStudent ∧
      (openStore (closeStore sampleStore { dat := some [], idx := none }
        IndexMedium.writable).2).1.id_index = [(7, 0)] ∧
      (findStudentById (openStore (closeStore sampleStore { dat := some [], idx := none }
        IndexMedium.writable).2).1 7).1 = none := by
  refine ⟨?_, by decide, by decide, by decide, by decide⟩
  intro db disk k
  exact ⟨rfl, find_in_empty_file _ k⟩

set_option maxRecDepth 100000 in
/-- C14, as stated, fails: when the index file cannot be opened, closing the
sample store sends to `cout` the same lines as a successful close and hands
nothing else back, the index file is still missing, and the next store opens
with an empty index. -/
theorem close_silent_counterexample :
    (closeStore sampleStore { dat := some sampleStore.dataFile, idx := none }
        IndexMedium.unopenable).1 =
      (closeStore sampleStore { dat := some sampleStore.dataFile, idx := none }
        IndexMedium.writable).1 ∧
      (closeStore sampleStore { dat := some sampleStore.dataFile, idx := none }
        IndexMedium.unopenable).2.idx = none ∧
      (closeStore sampleStore { dat := some sampleStore.dataFile, idx := none }
        IndexMedium.writable).2.idx = some (saveIndexLoop [(7, 0)]) ∧
      (openStore (closeStore sampleStore { dat := some sampleStore.dataFile, idx := none }
        IndexMedium.unopenable).2).1.id_index = [] := by
  decide

/-- C14 (amended): when writing the index file fails (the file cannot be
opened or a write fails), `saveIndex` and the destructor that calls it complete
silently: the lines sent to `cout` are those of a successful close and nothing
else is handed back; the index file is left as it was when it cannot be
opened, and holds only the entries written before the first failed write
otherwise. -/
theorem close_is_silent (db : Store) (disk : Disk) (medium : IndexMedium) :
    (closeStore db disk medium).1 = ["", "Shutting down. Saving index..."] ∧
      (closeStore db disk medium).1 = (closeStore db disk IndexMedium.writable).1 ∧
      (closeStore db disk medium).2.dat = some db.dataFile ∧
      (closeStore db disk IndexMedium.writable).2.idx = some (saveIndexLoop db.id_index) ∧
      (closeStore db disk IndexMedium.unopenable).2.idx = disk.idx ∧
      saveIndex db.id_index IndexMedium.unopenable disk.idx = disk.idx ∧
      (∀ n, (closeStore db disk (IndexMedium.failsAfter n)).2.idx =
        some (saveIndexLoop (db.id_index.take n))) :=
  ⟨rfl, rfl, rfl, rfl, rfl, rfl, fun _ => rfl⟩

end StudentDB
